import Mathlib

/-!
# Verification of the classno type-shape engine

Shallow embedding of the core of the `classno` library: the recursive
cast/validate dispatcher over type shapes (`classno/_casting.py`,
`classno/_validation.py`), the per-field façades (`cast_fields`,
`validate_fields`), field declaration (`classno/_fields.py`,
`_hooks.set_fields`), construction (`_hooks.init_obj`), the attribute
write pipeline (`classno/_setattrs.py`) and the equality/hash keys
(`classno/_dunders.py`).

Python runtime values are modelled by the inductive `Value`; type hints by
the mutual inductives `NHint` (non-union shapes) and `UHint` (possibly a
union).  Python `float` is modelled as an exact rational (the claims under
study never depend on binary rounding).  Python `set`/`dict` are modelled
as insertion-ordered lists, deduplicated by structural value equality
(CPython additionally identifies `1 == 1.0 == True` across numeric types;
no claim under study depends on that identification).
-/

namespace Classno

/-- A Python runtime value, in the universe the engine operates on. -/
inductive Value where
  | vnone
  | vbool (b : Bool)
  | vint (n : Int)
  | vfloat (q : Rat)
  | vstr (s : String)
  | vlist (xs : List Value)
  | vtuple (xs : List Value)
  | vset (xs : List Value)
  | vdict (xs : List (Value × Value))
  deriving Repr

mutual
/-- A non-union type shape (a permissible member of a union). -/
inductive NHint where
  | noneT
  | boolT
  | intT
  | floatT
  | strT
  | listT (h : UHint)
  | setT (h : UHint)
  | tupF (hs : List UHint)
  | tupV (h : UHint)
  | dictT (k v : UHint)
  deriving Repr

/-- A type shape as written in a declaration: a non-union shape or a
union of non-union members (Python's `typing` flattens nested unions). -/
inductive UHint where
  | nu (h : NHint)
  | union (hs : List NHint)
  deriving Repr
end

namespace Value

mutual
/-- Structural (boolean) equality on values; `beqL`/`beqP` handle the
nested lists.  Mirrors Python `==` restricted to same-runtime-type
operands (CPython's cross-numeric-type equality is not modelled). -/
def beq : Value → Value → Bool
  | .vnone, .vnone => true
  | .vbool a, .vbool b => a == b
  | .vint a, .vint b => a == b
  | .vfloat a, .vfloat b => a == b
  | .vstr a, .vstr b => a == b
  | .vlist xs, .vlist ys => beqL xs ys
  | .vtuple xs, .vtuple ys => beqL xs ys
  | .vset xs, .vset ys => beqL xs ys
  | .vdict xs, .vdict ys => beqP xs ys
  | _, _ => false

/-- Elementwise `beq` on lists of values. -/
def beqL : List Value → List Value → Bool
  | [], [] => true
  | x :: xs, y :: ys => beq x y && beqL xs ys
  | _, _ => false

/-- Elementwise `beq` on lists of key-value pairs. -/
def beqP : List (Value × Value) → List (Value × Value) → Bool
  | [], [] => true
  | (k, v) :: ps, (k2, v2) :: qs => (beq k k2 && beq v v2) && beqP ps qs
  | _, _ => false
end

theorem beq_iff : ∀ a b : Value, beq a b = true ↔ a = b := by
  have key : ∀ n, ∀ a b : Value, sizeOf a ≤ n → (beq a b = true ↔ a = b) := by
    intro n
    induction n with
    | zero =>
      intro a _ ha
      exact absurd ha (by cases a <;> simp)
    | succ n ih =>
      have ihL : ∀ xs ys : List Value, sizeOf xs ≤ n + 1 →
          (beqL xs ys = true ↔ xs = ys) := by
        intro xs
        induction xs with
        | nil => intro ys _; cases ys <;> simp [beqL]
        | cons x xs ihxs =>
          intro ys hs
          cases ys with
          | nil => simp [beqL]
          | cons y ys =>
            have hx : sizeOf x ≤ n := by simp at hs; omega
            have hxs : sizeOf xs ≤ n + 1 := by simp at hs; omega
            simp [beqL, ih x y hx, ihxs ys hxs]
      have ihP : ∀ xs ys : List (Value × Value), sizeOf xs ≤ n + 1 →
          (beqP xs ys = true ↔ xs = ys) := by
        intro xs
        induction xs with
        | nil => intro ys _; cases ys <;> simp [beqP]
        | cons p ps ihps =>
          intro ys hs
          obtain ⟨k, v⟩ := p
          cases ys with
          | nil => simp [beqP]
          | cons q qs =>
            obtain ⟨k2, v2⟩ := q
            have h1 : sizeOf k ≤ n := by simp at hs; omega
            have h2 : sizeOf v ≤ n := by simp at hs; omega
            have hps : sizeOf ps ≤ n + 1 := by simp at hs; omega
            simp [beqP, ih k k2 h1, ih v v2 h2, ihps qs hps, and_assoc]
      intro a b ha
      cases a <;> cases b <;> simp [beq]
      case vlist.vlist xs ys => exact ihL xs ys (by simp at ha; omega)
      case vtuple.vtuple xs ys => exact ihL xs ys (by simp at ha; omega)
      case vset.vset xs ys => exact ihL xs ys (by simp at ha; omega)
      case vdict.vdict xs ys => exact ihP xs ys (by simp at ha; omega)
  intro a b
  exact key (sizeOf a) a b le_rfl

instance : DecidableEq Value := fun a b =>
  decidable_of_iff (beq a b = true) (beq_iff a b)

end Value

/-! ## Python primitive operations used by the engine -/

/-- `int(float)` truncates toward zero (`int(42.5) == 42`,
`int(-42.5) == -42`). -/
def pyTruncRat (q : Rat) : Int := q.num.tdiv q.den

/-- Digit run of a string, as a natural number; `none` when the character
list is empty or holds a non-digit. -/
def digitsToNat : List Char → Option Nat
  | [] => none
  | cs =>
    cs.foldl
      (fun acc c =>
        match acc with
        | none => none
        | some n => if c.isDigit then some (n * 10 + (c.toNat - 48)) else none)
      (some 0)

/-- `int(str)`: optional sign followed by digits (whitespace and
underscore grouping accepted by CPython are not modelled). -/
def pyIntOfString (s : String) : Option Int :=
  match s.toList with
  | '-' :: cs => (digitsToNat cs).map (fun n => -(n : Int))
  | '+' :: cs => (digitsToNat cs).map (fun n => (n : Int))
  | cs => (digitsToNat cs).map (fun n => (n : Int))

/-- Digits with an optional single decimal point, as an exact rational. -/
def decimalToRat : List Char → Option Rat
  | cs =>
    match cs.span (· ≠ '.') with
    | (intPart, []) => (digitsToNat intPart).map (fun n => (n : Rat))
    | (intPart, _ :: fracPart) =>
      if intPart.isEmpty ∧ fracPart.isEmpty then none
      else
        match digitsToNat (intPart ++ fracPart),
            (if intPart.isEmpty then some 0 else digitsToNat intPart) with
        | some scaled, some _ => some ((scaled : Rat) / ((10 : Rat) ^ fracPart.length))
        | _, _ => none

/-- `float(str)`: optional sign, digits, optional fraction
(exponents, `inf`, `nan` are not modelled). -/
def pyFloatOfString (s : String) : Option Rat :=
  match s.toList with
  | '-' :: cs => (decimalToRat cs).map (fun q => -q)
  | '+' :: cs => decimalToRat cs
  | cs => decimalToRat cs

mutual
/-- Python `repr` of a value (the form `str` uses for container
elements).  Float rendering is exact decimal where the denominator is a
power of ten and `num/den` otherwise; the claims never inspect it. -/
def pyRepr : Value → String
  | .vnone => "None"
  | .vbool b => if b then "True" else "False"
  | .vint n => toString n
  | .vfloat q => if q.den = 1 then toString q.num ++ ".0" else toString q
  | .vstr s => "'" ++ s ++ "'"
  | .vlist xs => "[" ++ pyReprList xs ++ "]"
  | .vtuple xs => "(" ++ pyReprList xs ++ ")"
  | .vset xs => "\x7b" ++ pyReprList xs ++ "\x7d"
  | .vdict xs => "\x7b" ++ pyReprPairs xs ++ "\x7d"

def pyReprList : List Value → String
  | [] => ""
  | [x] => pyRepr x
  | x :: xs => pyRepr x ++ ", " ++ pyReprList xs

def pyReprPairs : List (Value × Value) → String
  | [] => ""
  | [(k, v)] => pyRepr k ++ ": " ++ pyRepr v
  | (k, v) :: xs => pyRepr k ++ ": " ++ pyRepr v ++ ", " ++ pyReprPairs xs
end

/-- Python `str(value)`: the value itself for strings, `repr` otherwise. -/
def pyStr : Value → String
  | .vstr s => s
  | v => pyRepr v

/-- Python truthiness, `bool(value)`, for non-string values (string
arguments take the vocabulary branch of the caster instead). -/
def pyTruthy : Value → Bool
  | .vnone => false
  | .vbool b => b
  | .vint n => n ≠ 0
  | .vfloat q => q ≠ 0
  | .vstr s => s ≠ ""
  | .vlist xs => ¬xs.isEmpty
  | .vtuple xs => ¬xs.isEmpty
  | .vset xs => ¬xs.isEmpty
  | .vdict xs => ¬xs.isEmpty

/-- Python iteration over a value: lists, tuples and sets yield their
elements, dicts their keys, strings their one-character substrings;
`none` models `TypeError: ... is not iterable`. -/
def pyIter : Value → Option (List Value)
  | .vlist xs => some xs
  | .vtuple xs => some xs
  | .vset xs => some xs
  | .vdict xs => some (xs.map Prod.fst)
  | .vstr s => some (s.toList.map (fun c => .vstr (String.mk [c])))
  | _ => none

/-- `str.startswith(pre)`: structural version over the character list. -/
def pyStartsWith (s pre : String) : Bool := pre.toList.isPrefixOf s.toList

/-- `str.endswith(suf)`: structural version over the character list. -/
def pyEndsWith (s suf : String) : Bool := suf.toList.isSuffixOf s.toList

/-- `str.lower()` (ASCII; the vocabulary it feeds is ASCII). -/
def pyToLower (s : String) : String := String.mk (s.toList.map Char.toLower)

/-- `name[1:]`. -/
def pyDropFirst (s : String) : String := String.mk (s.toList.drop 1)

/-- The runtime type name of a value, used in error messages. -/
def pyTypeName : Value → String
  | .vnone => "NoneType"
  | .vbool _ => "bool"
  | .vint _ => "int"
  | .vfloat _ => "float"
  | .vstr _ => "str"
  | .vlist _ => "list"
  | .vtuple _ => "tuple"
  | .vset _ => "set"
  | .vdict _ => "dict"

/-- `set.add`: append the element unless an equal one is present. -/
def setAdd (s : List Value) (e : Value) : List Value :=
  if e ∈ s then s else s ++ [e]

/-- Deduplication in insertion order (`set(iterable)` built by repeated
`add`). -/
def setOf (xs : List Value) : List Value := xs.foldl setAdd []

/-- `d[k] = v` on an insertion-ordered dict: an existing key keeps its
position and has its value replaced; a new key is appended. -/
def dictInsert (d : List (Value × Value)) (k v : Value) : List (Value × Value) :=
  if d.any (fun p => p.1 = k) then
    d.map (fun p => if p.1 = k then (p.1, v) else p)
  else d ++ [(k, v)]

/-! ## Type-shape classification (`typing.get_origin` / `isinstance`) -/

/-- A shape with no `typing` origin: a plain class usable with bare
`isinstance`. -/
def NHint.isSimple : NHint → Bool
  | .noneT | .boolT | .intT | .floatT | .strT => true
  | _ => false

/-- Whether the member shape is `type(None)` (the absence member). -/
def NHint.isNoneT : NHint → Bool
  | .noneT => true
  | _ => false

/-- `isinstance(value, shape)` for simple shapes, and
`isinstance(value, get_origin(shape))` for generic ones.  `bool` is a
subclass of `int` in Python, so ints accept bools; `isinstance(True,
float)` is false. -/
def pyIsInstanceN (v : Value) : NHint → Bool
  | .noneT => match v with | .vnone => true | _ => false
  | .boolT => match v with | .vbool _ => true | _ => false
  | .intT => match v with | .vint _ => true | .vbool _ => true | _ => false
  | .floatT => match v with | .vfloat _ => true | _ => false
  | .strT => match v with | .vstr _ => true | _ => false
  | .listT _ => match v with | .vlist _ => true | _ => false
  | .setT _ => match v with | .vset _ => true | _ => false
  | .tupF _ => match v with | .vtuple _ => true | _ => false
  | .tupV _ => match v with | .vtuple _ => true | _ => false
  | .dictT _ _ => match v with | .vdict _ => true | _ => false

/-- `isinstance` lifted to possibly-union shapes (`isinstance(x, A | B)`
checks each alternative). -/
def pyIsInstanceU (v : Value) : UHint → Bool
  | .nu h => pyIsInstanceN v h
  | .union hs => hs.any (pyIsInstanceN v)

/-! ## TypeMatcher, VALIDATE mode (`classno/_validation.py`,
`validate_value_hint` and its handlers).  The Python code signals a
mismatch by raising `TypeError`; the embedding returns `false`. -/

mutual
/-- `validate_value_hint(value, hint)` over a possibly-union shape. -/
def validateU (v : Value) : UHint → Bool
  | .nu h => validateN v h
  | .union hs => validAny v hs

/-- `validate_union`: succeed on the first member accepting the value. -/
def validAny (v : Value) : List NHint → Bool
  | [] => false
  | h :: rest => validateN v h || validAny v rest

/-- `validate_value_hint(value, hint)` over a non-union shape:
`validate_simple_type` for plain classes, `validate_with_origin` plus the
per-origin handler for generics. -/
def validateN (v : Value) : NHint → Bool
  | .noneT => pyIsInstanceN v .noneT
  | .boolT => pyIsInstanceN v .boolT
  | .intT => pyIsInstanceN v .intT
  | .floatT => pyIsInstanceN v .floatT
  | .strT => pyIsInstanceN v .strT
  | .listT h => match v with
    | .vlist xs => validElems xs h
    | _ => false
  | .setT h => match v with
    | .vset xs => validElems xs h
    | _ => false
  | .tupF hs => match v with
    | .vtuple xs => xs.length == hs.length && validZip xs hs
    | _ => false
  | .tupV h => match v with
    | .vtuple xs => validElems xs h
    | _ => false
  | .dictT hk hv => match v with
    | .vdict ps =>
      ps.all (fun p => pyIsInstanceU p.1 hk) && validVals (ps.map Prod.snd) hv
    | _ => false

/-- `validate_collection`: every element against the one element shape. -/
def validElems (xs : List Value) (h : UHint) : Bool :=
  match xs with
  | [] => true
  | x :: rest => validateU x h && validElems rest h

/-- Fixed-arity tuple: positionwise validation. -/
def validZip : List Value → List UHint → Bool
  | [], [] => true
  | x :: xs, h :: hs => validateU x h && validZip xs hs
  | _, _ => false

/-- `validate_dict` value loop: every dict value against the value shape. -/
def validVals (xs : List Value) (h : UHint) : Bool :=
  match xs with
  | [] => true
  | x :: rest => validateU x h && validVals rest h
end

/-! ## Rendering of shapes, for error messages -/

mutual
/-- Textual form of a non-union shape as it appears in messages. -/
def hintReprN : NHint → String
  | .noneT => "NoneType"
  | .boolT => "bool"
  | .intT => "int"
  | .floatT => "float"
  | .strT => "str"
  | .listT h => "list[" ++ hintReprU h ++ "]"
  | .setT h => "set[" ++ hintReprU h ++ "]"
  | .tupF hs => "tuple[" ++ hintReprList hs ++ "]"
  | .tupV h => "tuple[" ++ hintReprU h ++ ", ...]"
  | .dictT k v => "dict[" ++ hintReprU k ++ ", " ++ hintReprU v ++ "]"

def hintReprList : List UHint → String
  | [] => ""
  | [h] => hintReprU h
  | h :: hs => hintReprU h ++ ", " ++ hintReprList hs

def hintReprUnion : List NHint → String
  | [] => ""
  | [h] => hintReprN h
  | h :: hs => hintReprN h ++ ", " ++ hintReprUnion hs

/-- Textual form of a possibly-union shape. -/
def hintReprU : UHint → String
  | .nu h => hintReprN h
  | .union hs => "Union[" ++ hintReprUnion hs ++ "]"
end

/-! ## Error messages (`classno/_errors.py`, `ErrorFormatter`) -/

/-- `ErrorFormatter.casting_error(value, target_type, reason)`. -/
def castingErrorMsg (v : Value) (h : UHint) (reason : String) : String :=
  "Cannot cast " ++ pyRepr v ++ " of type " ++ pyTypeName v ++ " to "
    ++ hintReprU h ++ (if reason = "" then "" else ": " ++ reason)

/-- `ErrorFormatter.validation_error(field_name, expected_type,
actual_value)`. -/
def validationErrorMsg (fieldName : String) (h : UHint) (v : Value) : String :=
  "Validation error for field '" ++ fieldName ++ "': expected "
    ++ hintReprU h ++ ", got " ++ pyRepr v ++ " of type " ++ pyTypeName v

/-- `ErrorFormatter.mutable_default_error(field_default)`. -/
def mutableDefaultErrorMsg (d : Value) : String :=
  "Mutable default values are not allowed. Found " ++ pyTypeName d ++ " "
    ++ pyRepr d ++ ". Use " ++ "default_factory" ++ "=lambda: " ++ pyRepr d
    ++ " instead to avoid shared state issues."

/-! ## TypeMatcher, CAST mode (`classno/_casting.py`, `cast_value` and the
`CASTING_ORIGIN_HANDLER` table)

The Python code raises `TypeError` for every coercion failure;
`contextlib.suppress(TypeError)` inside the union logic swallows exactly
those.  Feeding a value without an `.items()` method to the dict caster
instead raises `AttributeError`, which nothing in the module catches; the
two kinds are therefore distinguished. -/

/-- A Python exception escaping `cast_value`. -/
inductive CastErr where
  | typeErr (msg : String)
  | attrErr (msg : String)
  deriving Repr, DecidableEq

theorem uhint_size_pos (u : UHint) : 0 < sizeOf u := by
  cases u <;> simp_arith

mutual
/-- `cast_value(value, hint)` over a possibly-union shape.  For a union:
the absence short-circuit, then the already-a-member scan, then the
cast-in-declared-order scan, then the aggregate failure. -/
def castU (v : Value) : UHint → Except CastErr Value
  | .nu h => castN v h
  | .union hs =>
    if v = .vnone ∧ hs.any NHint.isNoneT then .ok .vnone
    else
      match scan1 v hs with
      | some r => r
      | none =>
        match scan2 v hs with
        | some r => r
        | none =>
          .error (.typeErr (castingErrorMsg v (.union hs)
            "Cannot cast to any type in Union"))
termination_by h => (sizeOf h, 0)

/-- First union loop: is the value already one of the member types?  A
simple member accepts by `isinstance` and returns the value unchanged; a
generic member whose origin matches has its element casting attempted,
falling back to the unchanged value when that raises `TypeError`. -/
def scan1 (v : Value) : List NHint → Option (Except CastErr Value)
  | [] => none
  | h :: rest =>
    if h.isNoneT then scan1 v rest
    else if h.isSimple then
      if pyIsInstanceN v h then some (.ok v) else scan1 v rest
    else if pyIsInstanceN v h then
      match castN v h with
      | .ok r => some (.ok r)
      | .error (.typeErr _) => some (.ok v)
      | .error (.attrErr m) => some (.error (.attrErr m))
    else scan1 v rest
termination_by hs => (sizeOf hs, 1)

/-- Second union loop: full casting into each member in declared order,
skipping the absence member for a present value; `TypeError` moves on to
the next member. -/
def scan2 (v : Value) : List NHint → Option (Except CastErr Value)
  | [] => none
  | h :: rest =>
    if h.isNoneT ∧ v ≠ .vnone then scan2 v rest
    else
      match castN v h with
      | .ok r => some (.ok r)
      | .error (.typeErr _) => scan2 v rest
      | .error (.attrErr m) => some (.error (.attrErr m))
termination_by hs => (sizeOf hs, 1)

/-- `cast_value(value, hint)` over a non-union shape: plain conversion
for simple shapes (with the boolean text vocabulary), the registered
origin handler for generic ones. -/
def castN (v : Value) : NHint → Except CastErr Value
  | .noneT =>
    if pyIsInstanceN v .noneT then .ok v
    else .error (.typeErr (castingErrorMsg v (.nu .noneT)
      "NoneType takes no arguments"))
  | .boolT =>
    if pyIsInstanceN v .boolT then .ok v
    else
      match v with
      | .vstr s =>
        let l := pyToLower s
        if l = "true" ∨ l = "1" ∨ l = "yes" then .ok (.vbool true)
        else if l = "false" ∨ l = "0" ∨ l = "no" ∨ l = "" then .ok (.vbool false)
        else .error (.typeErr (castingErrorMsg v (.nu .boolT)
          ("Cannot cast '" ++ s ++ "' to bool")))
      | _ => .ok (.vbool (pyTruthy v))
  | .intT =>
    if pyIsInstanceN v .intT then .ok v
    else
      match v with
      | .vstr s =>
        match pyIntOfString s with
        | some n => .ok (.vint n)
        | none => .error (.typeErr (castingErrorMsg v (.nu .intT)
          ("invalid literal for int() with base 10: '" ++ s ++ "'")))
      | .vfloat q => .ok (.vint (pyTruncRat q))
      | _ => .error (.typeErr (castingErrorMsg v (.nu .intT)
        ("int() argument must not be " ++ pyTypeName v)))
  | .floatT =>
    if pyIsInstanceN v .floatT then .ok v
    else
      match v with
      | .vstr s =>
        match pyFloatOfString s with
        | some q => .ok (.vfloat q)
        | none => .error (.typeErr (castingErrorMsg v (.nu .floatT)
          ("could not convert string to float: '" ++ s ++ "'")))
      | .vint n => .ok (.vfloat n)
      | .vbool b => .ok (.vfloat (if b then 1 else 0))
      | _ => .error (.typeErr (castingErrorMsg v (.nu .floatT)
        ("float() argument must not be " ++ pyTypeName v)))
  | .strT =>
    if pyIsInstanceN v .strT then .ok v else .ok (.vstr (pyStr v))
  | .listT h =>
    match pyIter v with
    | some xs => (castElems xs h).map Value.vlist
    | none => .error (.typeErr ("'" ++ pyTypeName v ++ "' object is not iterable"))
  | .setT h =>
    match pyIter v with
    | some xs => (castElems xs h).map (fun rs => Value.vset (setOf rs))
    | none => .error (.typeErr ("'" ++ pyTypeName v ++ "' object is not iterable"))
  | .tupV h =>
    match pyIter v with
    | some xs => (castElems xs h).map Value.vtuple
    | none => .error (.typeErr ("'" ++ pyTypeName v ++ "' object is not iterable"))
  | .tupF hs =>
    match pyIter v with
    | some xs =>
      if xs.length = hs.length then (castZip xs hs).map Value.vtuple
      else .error (.typeErr "")
    | none => .error (.typeErr ("'" ++ pyTypeName v ++ "' object is not iterable"))
  | .dictT hk hv =>
    match v with
    | .vdict ps => (castPairs ps hk hv []).map Value.vdict
    | _ => .error (.attrErr ("'" ++ pyTypeName v
      ++ "' object has no attribute 'items'"))
termination_by h => (sizeOf h, 0)

/-- `cast_collection` / `cast_deque` element loop. -/
def castElems (xs : List Value) (h : UHint) : Except CastErr (List Value) :=
  match xs with
  | [] => .ok []
  | x :: rest =>
    match castU x h with
    | .error e => .error e
    | .ok r =>
      match castElems rest h with
      | .error e => .error e
      | .ok rs => .ok (r :: rs)
termination_by (sizeOf h, sizeOf xs + 1)

/-- Fixed-arity `cast_tuple` position loop (lengths already checked). -/
def castZip : List Value → List UHint → Except CastErr (List Value)
  | [], _ => .ok []
  | _, [] => .ok []
  | x :: xs, h :: hs =>
    match castU x h with
    | .error e => .error e
    | .ok r =>
      match castZip xs hs with
      | .error e => .error e
      | .ok rs => .ok (r :: rs)
termination_by _ hs => (sizeOf hs, 1)

/-- `cast_dict` loop: cast each key and value, inserting into the new
dict in iteration order. -/
def castPairs (ps : List (Value × Value)) (hk hv : UHint)
    (acc : List (Value × Value)) : Except CastErr (List (Value × Value)) :=
  match ps with
  | [] => .ok acc
  | (k, v) :: rest =>
    match castU k hk with
    | .error e => .error e
    | .ok k2 =>
      match castU v hv with
      | .error e => .error e
      | .ok v2 => castPairs rest hk hv (dictInsert acc k2 v2)
termination_by (sizeOf hk + sizeOf hv, sizeOf ps + 1)
decreasing_by
  all_goals simp_wf
  · have := uhint_size_pos hv; omega
  · have := uhint_size_pos hk; omega
  · omega
end

/-! ## Fields and declaration (`classno/_fields.py`, `_hooks.set_fields`) -/

/-- Per-field metadata.  `MISSING` sentinels are modelled as `none`; a
`default_factory` is modelled by the value a fresh call to it produces. -/
structure Field where
  name : String
  hint : UHint
  default : Option Value
  defaultFactory : Option Value
  deriving Repr

/-- The `ValueError` raised by field declaration (`ConfigurationError` in
the spec's nomenclature). -/
inductive FieldErr where
  | configurationError (msg : String)
  deriving Repr, DecidableEq

/-- `_validate_field_default`'s `mutable_types = (list, dict, set,
bytearray)`; byte-buffers are outside the modelled value universe. -/
def isMutableContainer : Value → Bool
  | .vlist _ | .vdict _ | .vset _ => true
  | _ => false

/-- `field(*, default, default_factory, ...)`: rejects double
specification and literal mutable-container defaults, at the moment the
field is declared. -/
def field (default defaultFactory : Option Value) :
    Except FieldErr (Option Value × Option Value) :=
  if default.isSome ∧ defaultFactory.isSome then
    .error (.configurationError "cannot specify both default and default_factory")
  else
    match default with
    | some d =>
      if isMutableContainer d then
        .error (.configurationError (mutableDefaultErrorMsg d))
      else .ok (default, defaultFactory)
    | none => .ok (default, defaultFactory)

/-- A class-body attribute backing an annotated name: absent, a bare
literal default, or an explicit `field(...)` specification (whose own
defaults were already checked when `field` ran). -/
inductive ClassAttr where
  | missing
  | plain (v : Value)
  | spec (default factory : Option Value)
  deriving Repr

/-- `_hooks.set_fields`: build the ordered field table at class
declaration time; a bare literal is passed through `field(default=attr)`,
so a mutable literal default raises before any instance exists. -/
def setFields (decls : List (String × UHint × ClassAttr)) :
    Except FieldErr (List Field) :=
  match decls with
  | [] => .ok []
  | (name, hint, attr) :: rest =>
    match
      (match attr with
        | .spec d f => Except.ok (d, f)
        | .plain v => field (some v) none
        | .missing => field none none) with
    | .error e => .error e
    | .ok (d, f) =>
      match setFields rest with
      | .error e => .error e
      | .ok fs => .ok (⟨name, hint, d, f⟩ :: fs)

/-! ## Instances and raw storage

An instance's attribute dictionary is an insertion-ordered association
list; `object.__setattr__` (raw storage) writes it directly. -/

/-- `object.__setattr__(obj, name, value)`. -/
def rawSet (vals : List (String × Value)) (name : String) (v : Value) :
    List (String × Value) :=
  if vals.any (fun p => p.1 = name) then
    vals.map (fun p => if p.1 = name then (p.1, v) else p)
  else vals ++ [(name, v)]

/-- `getattr(obj, name)`; instances built by the construction protocol
have every declared field present, so the `.vnone` fallback (standing for
the `AttributeError` case) is never exercised by the theorems below. -/
def objGet (vals : List (String × Value)) (name : String) : Value :=
  ((vals.find? (fun p => p.1 = name)).map Prod.snd).getD .vnone

/-- Keyword-argument lookup. -/
def lookupKw (kwargs : List (String × Value)) (name : String) : Option Value :=
  (kwargs.find? (fun p => p.1 = name)).map Prod.snd

/-! ## Construction (`_hooks.init_obj`) -/

/-- The `TypeError` listing the missing required arguments
(`MissingFieldsError` in the spec's nomenclature). -/
inductive InitErr where
  | missingFields (names : List String)
  deriving Repr, DecidableEq

/-- The field loop of `init_obj`: keyword argument, else static default,
else a fresh `default_factory()` result, else record the field missing.
Every store is `object.__setattr__` — raw storage, never the feature
write pipeline. -/
def initLoop (fields : List Field) (kwargs : List (String × Value))
    (vals : List (String × Value)) (missing : List String) :
    List (String × Value) × List String :=
  match fields with
  | [] => (vals, missing)
  | f :: rest =>
    match lookupKw kwargs f.name with
    | some v => initLoop rest kwargs (rawSet vals f.name v) missing
    | none =>
      match f.default with
      | some d => initLoop rest kwargs (rawSet vals f.name d) missing
      | none =>
        match f.defaultFactory with
        | some d => initLoop rest kwargs (rawSet vals f.name d) missing
        | none => initLoop rest kwargs vals (missing ++ [f.name])

/-- `init_obj`: populate all fields, then fail atomically when any were
missing.  Positional arguments are accepted and ignored by the source, so
they do not appear here. -/
def initObj (fields : List Field) (kwargs : List (String × Value)) :
    Except InitErr (List (String × Value)) :=
  let r := initLoop fields kwargs [] []
  if r.2.isEmpty then .ok r.1 else .error (.missingFields r.2)

/-! ## Validator / Caster façades (`validate_fields`, `cast_fields`) -/

/-- The error list accumulated by `validate_fields`: one formatted entry
per failing field, in declaration order, no short-circuit. -/
def validateFieldsErrors (fields : List Field) (vals : List (String × Value)) :
    List String :=
  match fields with
  | [] => []
  | f :: rest =>
    let attr := objGet vals f.name
    (if validateU attr f.hint then [] else [validationErrorMsg f.name f.hint attr])
      ++ validateFieldsErrors rest vals

/-- `validate_fields(obj)`: iterate all declared fields in order, collect
every failure, raise one aggregate `ValidationError` iff any occurred.
The loop only reads attributes, so the state-passing translation returns
the instance exactly as given. -/
def validateFields (fields : List Field) (vals : List (String × Value)) :
    Except (List String) (List (String × Value)) :=
  let errs := validateFieldsErrors fields vals
  if errs.isEmpty then .ok vals else .error errs

/-- An exception escaping `cast_fields`: the aggregate `CastingError`, or
an `AttributeError` from the dict caster that nothing catches. -/
inductive CastFieldsErr where
  | castingError (errors : List String)
  | attributeError (msg : String)
  deriving Repr, DecidableEq

/-- The field loop of `cast_fields`: cast each field, committing
successes via raw storage as it goes, collecting each `TypeError` into
the error list; an `AttributeError` aborts the loop. -/
def castFieldsLoop (fields : List Field) (vals : List (String × Value))
    (errs : List String) :
    Except String (List (String × Value) × List String) :=
  match fields with
  | [] => .ok (vals, errs)
  | f :: rest =>
    let attr := objGet vals f.name
    match castU attr f.hint with
    | .ok r => castFieldsLoop rest (rawSet vals f.name r) errs
    | .error (.typeErr m) =>
      castFieldsLoop rest vals (errs ++ [castingErrorMsg attr f.hint m])
    | .error (.attrErr m) => .error m

/-- `cast_fields(obj)`: cast all fields, then raise one aggregate
`CastingError` iff any field failed. -/
def castFields (fields : List Field) (vals : List (String × Value)) :
    Except CastFieldsErr (List (String × Value)) :=
  match castFieldsLoop fields vals [] with
  | .error m => .error (.attributeError m)
  | .ok (vals2, errs) =>
    if errs.isEmpty then .ok vals2 else .error (.castingError errs)

/-! ## Feature flags (`classno/constants.py`) and the write pipeline
(`classno/_setattrs.py`) -/

/-- The feature flags (`Features` enum; `priv` stands for the `PRIVATE`
flag, `private` being a Lean keyword). -/
inductive Feature where
  | eq | repr | order | hash | slots | frozen | priv | validation
  | lossyAutocast
  deriving Repr, DecidableEq

/-- An exception raised by the write pipeline. -/
inductive SetattrErr where
  | privatesOnly
  | attrNotFound (name : String)
  | frozenError (className : String)
  | validationTypeError (msg : String)
  | castTypeError (msg : String)
  | castAttrError (msg : String)
  | keyError (name : String)
  deriving Repr, DecidableEq

/-- `private_name_retrieval`: the name-resolution stage installed for the
PRIVATE flag.  `privateFields` models `getattr(self,
'__private_fields__', set())` — no code in the repository ever assigns
that attribute, so the processor below passes `[]`. -/
def privateNameRetrieval (fieldNames : List String)
    (privateFields : List String) (name : String) : Except SetattrErr String :=
  if name ∈ fieldNames ∧ pyStartsWith name "_" then .ok name
  else if name ∈ fieldNames ∧
      (name ∈ privateFields ∨ name = "secret"
        ∨ pyEndsWith name "private_field" ∨ name = "private_field") then
    .error .privatesOnly
  else if pyStartsWith name "_" then
    let actual := pyDropFirst name
    if actual ∈ fieldNames then .ok actual else .error (.attrNotFound name)
  else .ok name

/-- `frozen_handler`: unconditionally rejects the write, naming the
class. -/
def frozenHandler (className : String) (_name : String) (_value : Value) :
    Except SetattrErr (String × Value) :=
  .error (.frozenError className)

/-- `self.__fields__[name]`; `none` models the `KeyError` for an
undeclared name. -/
def findField (fields : List Field) (name : String) : Option Field :=
  fields.find? (fun f => f.name = name)

/-- `validation_handler`: validate the value against the field's shape,
re-raising a `TypeError` naming field, hint and offending value. -/
def validationHandler (fields : List Field) (name : String) (value : Value) :
    Except SetattrErr (String × Value) :=
  match findField fields name with
  | none => .error (.keyError name)
  | some f =>
    if validateU value f.hint then .ok (name, value)
    else
      .error (.validationTypeError ("For field " ++ f.name
        ++ " expected type of " ++ hintReprU f.hint ++ ", got " ++ pyStr value
        ++ " of type <class '" ++ pyTypeName value ++ "'>"))

/-- `lossy_autocast_handler`: replace the value with the result of the
single-field caster. -/
def lossyAutocastHandler (fields : List Field) (name : String) (value : Value) :
    Except SetattrErr (String × Value) :=
  match findField fields name with
  | none => .error (.keyError name)
  | some f =>
    match castU value f.hint with
    | .ok r => .ok (name, r)
    | .error (.typeErr m) => .error (.castTypeError m)
    | .error (.attrErr m) => .error (.castAttrError m)

/-- `setattr_processor`: the post-construction write pipeline.  Name
retrievals first (`_NAME_RETRIEVALS` holds only PRIVATE; the loop breaks
after the first hit), then the `_HANDLERS` in their declared order —
FROZEN, LOSSY_AUTOCAST, VALIDATION — each active only when its flag is
in `__features__`, and finally the unconditional raw-storage commit. -/
def setattrProcessor (features : List Feature) (className : String)
    (fields : List Field) (vals : List (String × Value)) (name : String)
    (value : Value) : Except SetattrErr (List (String × Value)) := do
  let name ←
    if Feature.priv ∈ features then
      privateNameRetrieval (fields.map Field.name) [] name
    else .ok name
  let (name, value) ←
    if Feature.frozen ∈ features then frozenHandler className name value
    else .ok (name, value)
  let (name, value) ←
    if Feature.lossyAutocast ∈ features then
      lossyAutocastHandler fields name value
    else .ok (name, value)
  let (name, value) ←
    if Feature.validation ∈ features then validationHandler fields name value
    else .ok (name, value)
  return rawSet vals name value

/-! ## Equality and hashing (`classno/_dunders.py`) -/

/-- Insertion sort by a boolean comparator (models `sorted`; the
comparator below orders pairs by their rendered form — a deterministic
total order standing in for Python's tuple comparison). -/
def insertSorted (le : Value × Value → Value × Value → Bool)
    (x : Value × Value) : List (Value × Value) → List (Value × Value)
  | [] => [x]
  | y :: ys => if le x y then x :: y :: ys else y :: insertSorted le x ys

def sortPairs (le : Value × Value → Value × Value → Bool) :
    List (Value × Value) → List (Value × Value)
  | [] => []
  | x :: xs => insertSorted le x (sortPairs le xs)

/-- Comparator for `sorted(items)`. -/
def pairLe (a b : Value × Value) : Bool :=
  pyRepr a.1 < pyRepr b.1
    || (pyRepr a.1 = pyRepr b.1 && pyRepr a.2 ≤ pyRepr b.2)

mutual
/-- `make_hashable` from `_hash_value`: dict → sorted tuple of
`(key, surrogate-value)` pairs; list/set → tuple of surrogates; other
non-string iterables (tuples here) → elementwise surrogate; anything else
is returned as is. -/
def makeHashable : Value → Value
  | .vdict xs =>
    .vtuple ((sortPairs pairLe (mhPairs xs)).map
      (fun p => .vtuple [p.1, p.2]))
  | .vlist xs => .vtuple (mhList xs)
  | .vset xs => .vtuple (mhList xs)
  | .vtuple xs => .vtuple (mhList xs)
  | v => v

def mhList : List Value → List Value
  | [] => []
  | x :: xs => makeHashable x :: mhList xs

def mhPairs : List (Value × Value) → List (Value × Value)
  | [] => []
  | (k, v) :: xs => (k, makeHashable v) :: mhPairs xs
end

/-- `_hash_value`: the tuple Python's `hash` is applied to — surrogates
of the values at `__hash_keys__`, in key order. -/
def hashValue (vals : List (String × Value)) (hashKeys : List String) :
    List Value :=
  hashKeys.map (fun k => makeHashable (objGet vals k))

/-- `_eq_value`: the tuple compared by `__eq__` — the values at
`__eq_keys__`, in key order. -/
def eqValue (vals : List (String × Value)) (eqKeys : List String) :
    List Value :=
  eqKeys.map (fun k => objGet vals k)

/-! ## The construction protocol (`MetaClassno.__call__` →
`init_obj` → `process_obj_features`) -/

/-- An exception escaping construction. -/
inductive ConstructErr where
  | missingFields (names : List String)
  | validationError (errors : List String)
  | castingError (errors : List String)
  | attributeError (msg : String)
  deriving Repr, DecidableEq

/-- The Allocated → Populated → PostProcessed transitions:
`init_obj` stores every field via raw storage, then
`process_obj_features` runs `validate_fields` (VALIDATION) and
`cast_fields` (LOSSY_AUTOCAST), in that source order. -/
def constructObj (features : List Feature) (fields : List Field)
    (kwargs : List (String × Value)) :
    Except ConstructErr (List (String × Value)) := do
  let vals ←
    match initObj fields kwargs with
    | .ok v => Except.ok v
    | .error (.missingFields ns) => Except.error (ConstructErr.missingFields ns)
  let vals ←
    if Feature.validation ∈ features then
      match validateFields fields vals with
      | .ok v => Except.ok v
      | .error es => Except.error (ConstructErr.validationError es)
    else Except.ok vals
  let vals ←
    if Feature.lossyAutocast ∈ features then
      match castFields fields vals with
      | .ok v => Except.ok v
      | .error (.castingError es) => Except.error (ConstructErr.castingError es)
      | .error (.attributeError m) => Except.error (ConstructErr.attributeError m)
    else Except.ok vals
  return vals

/-! ## Supporting lemmas -/

instance {ε α : Type} [DecidableEq ε] [DecidableEq α] :
    DecidableEq (Except ε α) := fun a b =>
  match a, b with
  | .ok x, .ok y =>
    if h : x = y then .isTrue (by rw [h])
    else .isFalse (fun hh => by injection hh; contradiction)
  | .error x, .error y =>
    if h : x = y then .isTrue (by rw [h])
    else .isFalse (fun hh => by injection hh; contradiction)
  | .ok _, .error _ => .isFalse (fun hh => by injection hh)
  | .error _, .ok _ => .isFalse (fun hh => by injection hh)

theorem rawSet_map_eq_self (rest : List (String × Value)) (n : String)
    (v : Value) (h : ∀ q ∈ rest, ¬q.1 = n) :
    rest.map (fun q => if q.1 = n then (q.1, v) else q) = rest := by
  induction rest with
  | nil => rfl
  | cons q rest ih =>
    simp only [List.map_cons, if_neg (h q (List.Mem.head _)),
      ih (fun q2 h2 => h q2 (List.Mem.tail _ h2))]

theorem find_rawSet_self (vals : List (String × Value)) (n : String)
    (v : Value) :
    (rawSet vals n v).find? (fun p => p.1 = n) = some (n, v) := by
  induction vals with
  | nil => simp [rawSet, List.find?]
  | cons p rest ih =>
    by_cases hp : p.1 = n
    · simp [rawSet, List.any_cons, hp, List.find?]
    · by_cases hr : rest.any (fun q => q.1 = n)
      · have ih2 := ih
        simp only [rawSet, hr, if_pos] at ih2
        simp [rawSet, List.any_cons, hp, hr, List.find?, ih2]
      · have ih2 := ih
        simp only [rawSet, hr, if_neg, Bool.false_eq_true,
          not_false_eq_true] at ih2
        simp [rawSet, List.any_cons, hp, hr, List.find?, ih2]

theorem find_rawSet_other (vals : List (String × Value)) (n m : String)
    (v : Value) (hne : m ≠ n) :
    (rawSet vals n v).find? (fun p => p.1 = m)
      = vals.find? (fun p => p.1 = m) := by
  have hnm : ¬n = m := fun h => hne h.symm
  induction vals with
  | nil => simp [rawSet, List.find?, hnm]
  | cons p rest ih =>
    by_cases hp : p.1 = n
    · by_cases hr : rest.any (fun q => q.1 = n)
      · have ih2 := ih
        simp only [rawSet, hr, if_pos] at ih2
        simp [rawSet, List.any_cons, hp, List.find?, hnm, ih2]
      · have hrest : ∀ q ∈ rest, ¬q.1 = n := by
          intro q hq hqn
          exact absurd (List.any_eq_true.mpr ⟨q, hq, by simp [hqn]⟩) hr
        simp [rawSet, List.any_cons, hp, List.find?, hnm,
          rawSet_map_eq_self rest n v hrest]
    · by_cases hr : rest.any (fun q => q.1 = n)
      · have ih2 := ih
        simp only [rawSet, hr, if_pos] at ih2
        by_cases hm : p.1 = m
        · simp [rawSet, List.any_cons, hp, hr, List.find?, hm, hne, hnm]
        · simp [rawSet, List.any_cons, hp, hr, List.find?, hm, ih2]
      · have ih2 := ih
        simp only [rawSet, hr, if_neg, Bool.false_eq_true,
          not_false_eq_true] at ih2
        by_cases hm : p.1 = m
        · simp [rawSet, List.any_cons, hp, hr, List.find?, hm, hne, hnm]
        · simp [rawSet, List.any_cons, hp, hr, List.find?, hm, ih2]

theorem objGet_rawSet_self (vals : List (String × Value)) (n : String)
    (v : Value) : objGet (rawSet vals n v) n = v := by
  simp [objGet, find_rawSet_self]

theorem objGet_rawSet_other (vals : List (String × Value)) (n m : String)
    (v : Value) (hne : m ≠ n) :
    objGet (rawSet vals n v) m = objGet vals m := by
  simp [objGet, find_rawSet_other vals n m v hne]

theorem map_eq_map_pointwise {α β : Type} (l : List α) (f g : α → β)
    (h : l.map f = l.map g) : ∀ x ∈ l, f x = g x := by
  induction l with
  | nil => simp
  | cons a l ih =>
    simp only [List.map_cons, List.cons.injEq] at h
    intro x hx
    rcases List.mem_cons.mp hx with rfl | hx
    · exact h.1
    · exact ih h.2 x hx

/-- The value a field receives during construction: explicit keyword
argument first, else the static default, else the factory's product. -/
def fieldSource (kwargs : List (String × Value)) (f : Field) : Option Value :=
  match lookupKw kwargs f.name with
  | some v => some v
  | none =>
    match f.default with
    | some d => some d
    | none => f.defaultFactory

/-- The declared fields left without any of the three sources, in
declaration order. -/
def missingNames (fields : List Field) (kwargs : List (String × Value)) :
    List String :=
  (fields.filter (fun f => (fieldSource kwargs f).isNone)).map Field.name

theorem initLoop_missing (fields : List Field) (kwargs : List (String × Value))
    (vals : List (String × Value)) (missing : List String) :
    (initLoop fields kwargs vals missing).2
      = missing ++ missingNames fields kwargs := by
  induction fields generalizing vals missing with
  | nil => simp [initLoop, missingNames]
  | cons f rest ih =>
    cases hkw : lookupKw kwargs f.name with
    | some v =>
      simp [initLoop, hkw, ih, missingNames, List.filter, fieldSource]
    | none =>
      cases hd : f.default with
      | some d => simp [initLoop, hkw, hd, ih, missingNames, List.filter,
          fieldSource]
      | none =>
        cases hf : f.defaultFactory with
        | some d => simp [initLoop, hkw, hd, hf, ih, missingNames,
            List.filter, fieldSource]
        | none =>
          simp [initLoop, hkw, hd, hf, ih, missingNames, List.filter,
            fieldSource]

theorem initLoop_preserve (fields : List Field)
    (kwargs vals : List (String × Value)) (missing : List String)
    (nm : String) (hout : ∀ g ∈ fields, g.name ≠ nm) :
    objGet (initLoop fields kwargs vals missing).1 nm = objGet vals nm := by
  induction fields generalizing vals missing with
  | nil => simp [initLoop]
  | cons f rest ih =>
    have hf : f.name ≠ nm := hout f (List.Mem.head _)
    have hrest : ∀ g ∈ rest, g.name ≠ nm :=
      fun g hg => hout g (List.Mem.tail _ hg)
    cases hkw : lookupKw kwargs f.name with
    | some v =>
      simp [initLoop, hkw, ih _ _ hrest,
        objGet_rawSet_other vals f.name nm v (fun h => hf h.symm)]
    | none =>
      cases hd : f.default with
      | some d =>
        simp [initLoop, hkw, hd, ih _ _ hrest,
          objGet_rawSet_other vals f.name nm d (fun h => hf h.symm)]
      | none =>
        cases hff : f.defaultFactory with
        | some d =>
          simp [initLoop, hkw, hd, hff, ih _ _ hrest,
            objGet_rawSet_other vals f.name nm d (fun h => hf h.symm)]
        | none => simp [initLoop, hkw, hd, hff, ih _ _ hrest]

theorem initLoop_get (fields : List Field) (kwargs : List (String × Value))
    (hnd : (fields.map Field.name).Nodup) :
    ∀ vals missing, ∀ f ∈ fields, ∀ v, fieldSource kwargs f = some v →
      objGet (initLoop fields kwargs vals missing).1 f.name = v := by
  induction fields with
  | nil => intro _ _ f hf; cases hf
  | cons g rest ih =>
    intro vals missing f hf v hsrc
    simp only [List.map_cons, List.nodup_cons] at hnd
    rcases List.mem_cons.mp hf with rfl | hmem
    · have hout : ∀ g2 ∈ rest, g2.name ≠ f.name := by
        intro g2 hg2 hne
        exact hnd.1 (hne ▸ List.mem_map_of_mem Field.name hg2)
      rw [fieldSource] at hsrc
      cases hkw : lookupKw kwargs f.name with
      | some w =>
        rw [hkw] at hsrc
        injection hsrc with hsrc
        subst hsrc
        simp [initLoop, hkw, initLoop_preserve rest kwargs _ _ _ hout,
          objGet_rawSet_self]
      | none =>
        rw [hkw] at hsrc
        cases hd : f.default with
        | some d =>
          rw [hd] at hsrc
          injection hsrc with hsrc
          subst hsrc
          simp [initLoop, hkw, hd,
            initLoop_preserve rest kwargs _ _ _ hout, objGet_rawSet_self]
        | none =>
          rw [hd] at hsrc
          simp only at hsrc
          simp [initLoop, hkw, hd, hsrc,
            initLoop_preserve rest kwargs _ _ _ hout, objGet_rawSet_self]
    · cases hkw : lookupKw kwargs g.name with
      | some w => simp [initLoop, hkw, ih hnd.2 _ _ f hmem v hsrc]
      | none =>
        cases hd : g.default with
        | some d => simp [initLoop, hkw, hd, ih hnd.2 _ _ f hmem v hsrc]
        | none =>
          cases hff : g.defaultFactory with
          | some d => simp [initLoop, hkw, hd, hff, ih hnd.2 _ _ f hmem v hsrc]
          | none => simp [initLoop, hkw, hd, hff, ih hnd.2 _ _ f hmem v hsrc]

theorem initObj_missing (fields : List Field) (kwargs : List (String × Value))
    (hne : missingNames fields kwargs ≠ []) :
    initObj fields kwargs
      = .error (.missingFields (missingNames fields kwargs)) := by
  have hm := initLoop_missing fields kwargs [] []
  simp only [initObj, hm, List.nil_append]
  rw [if_neg (by simpa [List.isEmpty_iff] using hne)]

theorem initObj_complete (fields : List Field) (kwargs : List (String × Value))
    (hnd : (fields.map Field.name).Nodup)
    (hemp : missingNames fields kwargs = []) :
    ∃ vals, initObj fields kwargs = .ok vals ∧
      ∀ f ∈ fields, ∀ v, fieldSource kwargs f = some v →
        objGet vals f.name = v := by
  have hm := initLoop_missing fields kwargs [] []
  refine ⟨(initLoop fields kwargs [] []).1, ?_, ?_⟩
  · simp only [initObj, hm, List.nil_append]
    rw [if_pos (by simpa [List.isEmpty_iff] using hemp)]
  · intro f hf v hsrc
    exact initLoop_get fields kwargs hnd [] [] f hf v hsrc

/-! ## Claim theorems -/

/-- C2: for every union shape that includes the absence member, casting
the absence marker returns the absence marker itself (`cast_value` checks
`value is None and type(None) in union_args` before anything else, so the
absence marker is never converted to a textual form). -/
theorem claim_C2_cast_absence_returns_absence (hs : List NHint)
    (hmem : NHint.noneT ∈ hs) :
    castU .vnone (.union hs) = .ok .vnone := by
  have hany : hs.any NHint.isNoneT = true :=
    List.any_eq_true.mpr ⟨_, hmem, rfl⟩
  simp [castU, hany]

/-- C2 witness: `cast(absent, Optional[str]) == absent`. -/
theorem claim_C2_witness :
    castU .vnone (.union [.strT, .noneT]) = .ok .vnone :=
  claim_C2_cast_absence_returns_absence [.strT, .noneT]
    (List.Mem.tail _ (List.Mem.head _))

/-- C7: a literal mutable-container default is rejected by `field` with
the configuration error (the `ValueError` of `_fields.py`) whose message
instructs the declarer to use `default_factory`; and any class declaration
whose field table contains such a bare literal default fails already in
`set_fields` — at declaration time, before any instance can exist. -/
theorem claim_C7_mutable_default_rejected (d : Value)
    (hm : isMutableContainer d = true) :
    field (some d) none = .error (.configurationError (mutableDefaultErrorMsg d))
    ∧ (∃ s1 s2, mutableDefaultErrorMsg d = s1 ++ "default_factory" ++ s2)
    ∧ ∀ (decls : List (String × UHint × ClassAttr)) (name : String)
        (hint : UHint), (name, hint, ClassAttr.plain d) ∈ decls →
        ∃ msg, setFields decls = .error (.configurationError msg) := by
  refine ⟨by simp [field, hm], ?_, ?_⟩
  · exact ⟨"Mutable default values are not allowed. Found " ++ pyTypeName d
      ++ " " ++ pyRepr d ++ ". Use ",
      "=lambda: " ++ pyRepr d ++ " instead to avoid shared state issues.",
      by simp only [mutableDefaultErrorMsg, String.append_assoc]⟩
  · intro decls
    induction decls with
    | nil => intro name hint h; cases h
    | cons p rest ih =>
      intro name hint h
      obtain ⟨pn, ph, pa⟩ := p
      rcases List.mem_cons.mp h with heq | hmem
      · cases heq
        exact ⟨mutableDefaultErrorMsg d, by simp [setFields, field, hm]⟩
      · obtain ⟨msg, hrest⟩ := ih name hint hmem
        cases pa with
        | missing => exact ⟨msg, by simp [setFields, field, hrest]⟩
        | plain v =>
          by_cases hv : isMutableContainer v = true
          · exact ⟨mutableDefaultErrorMsg v, by simp [setFields, field, hv]⟩
          · exact ⟨msg, by simp [setFields, field, hv, hrest]⟩
        | spec dd ff => exact ⟨msg, by simp [setFields, hrest]⟩

/-- C7 witness: `tags: list = []` fails at declaration time with the
configuration error instructing use of a factory. -/
theorem claim_C7_witness :
    isMutableContainer (Value.vlist []) = true
    ∧ field (some (.vlist [])) none
        = .error (.configurationError (mutableDefaultErrorMsg (.vlist [])))
    ∧ ∃ msg, setFields [("tags", .nu (.listT (.nu .strT)),
        ClassAttr.plain (.vlist []))] = .error (.configurationError msg) := by
  refine ⟨rfl, (claim_C7_mutable_default_rejected (.vlist []) rfl).1, ?_⟩
  exact (claim_C7_mutable_default_rejected (.vlist []) rfl).2.2 _ "tags"
    (.nu (.listT (.nu .strT))) (List.Mem.head _)

/-- C8 (code bug): with the PRIVATE flag, the claim (and the repository's
own tests, `tests/unit/test_private_features.py`) require every write to a
declared field's public name to be rejected; `private_name_retrieval`
instead only rejects the hard-coded names (`secret`, `private_field`,
`*private_field`, and members of the never-assigned
`__private_fields__`).  At the failing input — a PRIVATE class with a
declared field `name` — the public write is resolved and committed. -/
theorem claim_C8_public_write_committed :
    privateNameRetrieval ["name"] [] "name" = .ok "name"
    ∧ setattrProcessor [.priv] "Obj" [⟨"name", .nu .strT, none, none⟩]
        [("name", .vstr "old")] "name" (.vstr "new")
      = .ok [("name", .vstr "new")]
    ∧ setattrProcessor [.priv] "Obj" [⟨"secret", .nu .strT, none, none⟩]
        [("secret", .vstr "old")] "secret" (.vstr "new")
      = .error .privatesOnly := by
  refine ⟨by decide, by decide, by decide⟩

/-- C9: when the HASH and EQ key tuples contain the same set of field
names, `a == b` (equality of the `_eq_value` tuples) implies equality of
the `_hash_value` tuples, hence `hash(a) == hash(b)`. -/
theorem claim_C9_eq_implies_hash_eq (vals1 vals2 : List (String × Value))
    (eqKeys hashKeys : List String)
    (hkeys : ∀ k, k ∈ hashKeys ↔ k ∈ eqKeys)
    (heq : eqValue vals1 eqKeys = eqValue vals2 eqKeys) :
    hashValue vals1 hashKeys = hashValue vals2 hashKeys := by
  have hpt : ∀ k ∈ eqKeys, objGet vals1 k = objGet vals2 k :=
    map_eq_map_pointwise eqKeys _ _ heq
  have aux : ∀ ks : List String, (∀ k ∈ ks, k ∈ eqKeys) →
      ks.map (fun k => makeHashable (objGet vals1 k))
        = ks.map (fun k => makeHashable (objGet vals2 k)) := by
    intro ks
    induction ks with
    | nil => intro _; rfl
    | cons k ks ih =>
      intro hsub
      simp only [List.map_cons]
      rw [hpt k (hsub k (List.Mem.head _)),
        ih (fun k2 h2 => hsub k2 (List.Mem.tail _ h2))]
  exact aux hashKeys (fun k hk => (hkeys k).mp hk)

/-- C9 witness at a concrete type: keys `x` for both HASH and EQ, two
instances with equal field values. -/
theorem claim_C9_witness :
    (∀ k, k ∈ (["x"] : List String) ↔ k ∈ (["x"] : List String))
    ∧ eqValue [("x", .vint 1), ("y", .vint 2)] ["x"]
        = eqValue [("x", .vint 1), ("y", .vint 3)] ["x"]
    ∧ hashValue [("x", .vint 1), ("y", .vint 2)] ["x"]
        = hashValue [("x", .vint 1), ("y", .vint 3)] ["x"] :=
  ⟨fun _ => Iff.rfl, by simp [eqValue, objGet, List.find?],
    claim_C9_eq_implies_hash_eq _ _ _ _ (fun _ => Iff.rfl)
      (by simp [eqValue, objGet, List.find?])⟩

/-- C6: during construction each field takes its explicit keyword
argument, else its static default, else the factory's product
(`fieldSource` states that precedence); after all declared fields are
attempted, construction fails with the missing-required-arguments error
naming exactly the sourceless fields, in order, iff at least one exists. -/
theorem claim_C6_construction_sources (fields : List Field)
    (kwargs : List (String × Value))
    (hnd : (fields.map Field.name).Nodup) :
    (missingNames fields kwargs ≠ [] →
      initObj fields kwargs
        = .error (.missingFields (missingNames fields kwargs)))
    ∧ (missingNames fields kwargs = [] →
      ∃ vals, initObj fields kwargs = .ok vals ∧
        ∀ f ∈ fields, ∀ v, fieldSource kwargs f = some v →
          objGet vals f.name = v) :=
  ⟨initObj_missing fields kwargs, initObj_complete fields kwargs hnd⟩

/-- C6 witness: `X(a=1)` for fields `a` (no default), `b` (default),
`c` (factory), `d` (no source): missing is exactly `d`; with `d` given a
default the construction succeeds with the precedence respected. -/
theorem claim_C6_witness :
    (missingNames
        [⟨"a", .nu .intT, none, none⟩, ⟨"b", .nu .intT, some (.vint 2), none⟩,
          ⟨"c", .nu .intT, none, some (.vint 3)⟩, ⟨"d", .nu .intT, none, none⟩]
        [("a", .vint 1)] = ["d"])
    ∧ initObj
        [⟨"a", .nu .intT, none, none⟩, ⟨"b", .nu .intT, some (.vint 2), none⟩,
          ⟨"c", .nu .intT, none, some (.vint 3)⟩, ⟨"d", .nu .intT, none, none⟩]
        [("a", .vint 1)]
      = .error (.missingFields ["d"])
    ∧ ∃ vals, initObj
        [⟨"a", .nu .intT, none, none⟩, ⟨"b", .nu .intT, some (.vint 2), none⟩,
          ⟨"c", .nu .intT, none, some (.vint 3)⟩]
        [("a", .vint 1)] = .ok vals
        ∧ objGet vals "a" = .vint 1 ∧ objGet vals "b" = .vint 2
        ∧ objGet vals "c" = .vint 3 := by
  refine ⟨by decide, ?_, ?_⟩
  · have h := (claim_C6_construction_sources
      [⟨"a", .nu .intT, none, none⟩, ⟨"b", .nu .intT, some (.vint 2), none⟩,
        ⟨"c", .nu .intT, none, some (.vint 3)⟩, ⟨"d", .nu .intT, none, none⟩]
      [("a", .vint 1)] (by decide)).1 (by decide)
    simpa using h
  · obtain ⟨vals, hok, hget⟩ := (claim_C6_construction_sources
      [⟨"a", .nu .intT, none, none⟩, ⟨"b", .nu .intT, some (.vint 2), none⟩,
        ⟨"c", .nu .intT, none, some (.vint 3)⟩]
      [("a", .vint 1)] (by decide)).2 (by decide)
    exact ⟨vals, hok,
      hget _ (List.Mem.head _) _ (by decide),
      hget _ (List.Mem.tail _ (List.Mem.head _)) _ (by decide),
      hget _ (List.Mem.tail _ (List.Mem.tail _ (List.Mem.head _))) _
        (by decide)⟩

/-- C5: `validate_fields` produces one formatted error per failing field,
in declaration order and without short-circuiting; it raises the
aggregate `ValidationError` exactly when at least one field fails and
returns with the instance untouched otherwise (the loop performs no
attribute writes, which the state-passing embedding renders by returning
`vals` itself). -/
theorem claim_C5_validate_fields_aggregates (fields : List Field)
    (vals : List (String × Value)) :
    validateFieldsErrors fields vals
      = (fields.filter
          (fun f => !validateU (objGet vals f.name) f.hint)).map
          (fun f => validationErrorMsg f.name f.hint (objGet vals f.name))
    ∧ ((∃ f ∈ fields, validateU (objGet vals f.name) f.hint = false) →
        validateFields fields vals
          = .error (validateFieldsErrors fields vals)
        ∧ validateFieldsErrors fields vals ≠ [])
    ∧ ((∀ f ∈ fields, validateU (objGet vals f.name) f.hint = true) →
        validateFields fields vals = .ok vals) := by
  have herr : validateFieldsErrors fields vals
      = (fields.filter
          (fun f => !validateU (objGet vals f.name) f.hint)).map
          (fun f => validationErrorMsg f.name f.hint (objGet vals f.name)) := by
    induction fields with
    | nil => rfl
    | cons f rest ih =>
      cases hv : validateU (objGet vals f.name) f.hint <;>
        simp [validateFieldsErrors, List.filter, hv, ih]
  refine ⟨herr, ?_, ?_⟩
  · rintro ⟨f, hf, hfail⟩
    have hne : validateFieldsErrors fields vals ≠ [] := by
      rw [herr]
      intro hcon
      have : f ∈ fields.filter
          (fun f => !validateU (objGet vals f.name) f.hint) :=
        List.mem_filter.mpr ⟨hf, by simp [hfail]⟩
      rw [List.map_eq_nil_iff] at hcon
      simp [hcon] at this
    exact ⟨by
      simp only [validateFields]
      rw [if_neg (by simpa [List.isEmpty_iff] using hne)], hne⟩
  · intro hall
    have : validateFieldsErrors fields vals = [] := by
      rw [herr]
      have : fields.filter
          (fun f => !validateU (objGet vals f.name) f.hint) = [] := by
        rw [List.filter_eq_nil_iff]
        intro f hf
        simp [hall f hf]
      simp [this]
    simp only [validateFields]
    rw [if_pos (by simpa [List.isEmpty_iff] using this)]

/-- C5 witness: two failing fields out of three produce exactly the two
errors, in order; an all-valid instance passes and is returned
unchanged. -/
theorem claim_C5_witness :
    validateFields
        [⟨"a", .nu .intT, none, none⟩, ⟨"b", .nu .strT, none, none⟩,
          ⟨"c", .nu .intT, none, none⟩]
        [("a", .vstr "x"), ("b", .vstr "ok"), ("c", .vnone)]
      = .error [validationErrorMsg "a" (.nu .intT) (.vstr "x"),
          validationErrorMsg "c" (.nu .intT) .vnone]
    ∧ validateFields [⟨"a", .nu .intT, none, none⟩] [("a", .vint 1)]
      = .ok [("a", .vint 1)] := by
  constructor
  · have h := ((claim_C5_validate_fields_aggregates
      [⟨"a", .nu .intT, none, none⟩, ⟨"b", .nu .strT, none, none⟩,
        ⟨"c", .nu .intT, none, none⟩]
      [("a", .vstr "x"), ("b", .vstr "ok"), ("c", .vnone)]).2.1
      ⟨⟨"a", .nu .intT, none, none⟩, List.Mem.head _, by
        simp [objGet, List.find?, validateU, validateN, pyIsInstanceN]⟩).1
    rw [h]
    congr 1
    simp [validateFieldsErrors, objGet, List.find?, validateU, validateN,
      pyIsInstanceN]
  · exact (claim_C5_validate_fields_aggregates _ _).2.2 (by
      intro f hf
      rcases List.mem_cons.mp hf with rfl | hf2
      · simp [objGet, List.find?, validateU, validateN, pyIsInstanceN]
      · cases hf2)

/-- C3 counterexample: a flag set containing both LOSSY_AUTOCAST and
VALIDATION — together with FROZEN — rejects the write at the mutation
guard, so no coercion runs and nothing is committed; the claim's "every
post-construction attribute write runs coercion … and the coerced value
is then committed" fails for such a type. -/
theorem claim_C3_counterexample :
    setattrProcessor [.frozen, .lossyAutocast, .validation] "P"
      [⟨"x", .nu .intT, none, none⟩] [("x", .vint 1)] "x" (.vstr "5")
      = .error (.frozenError "P") := by
  simp [setattrProcessor, frozenHandler, bind, Except.bind]

/-- C3 (amended): for every type whose flag set contains both
LOSSY_AUTOCAST and VALIDATION and neither FROZEN nor PRIVATE (the two
pipeline stages that run before the handlers and can reject the write
first), every post-construction attribute write runs coercion before
verification — verification is applied to the coerced value, not the
original — and on success the coerced value is committed via raw
storage. -/
theorem claim_C3_coerce_then_validate_then_commit (fs : List Feature)
    (className : String) (fields : List Field)
    (vals : List (String × Value)) (name : String) (value : Value)
    (hl : Feature.lossyAutocast ∈ fs) (hv : Feature.validation ∈ fs)
    (hf : Feature.frozen ∉ fs) (hp : Feature.priv ∉ fs) :
    (∀ f c, findField fields name = some f → castU value f.hint = .ok c →
      validateU c f.hint = true →
      setattrProcessor fs className fields vals name value
        = .ok (rawSet vals name c))
    ∧ (∀ f c, findField fields name = some f → castU value f.hint = .ok c →
      validateU c f.hint = false →
      setattrProcessor fs className fields vals name value
        = .error (.validationTypeError ("For field " ++ f.name
          ++ " expected type of " ++ hintReprU f.hint ++ ", got " ++ pyStr c
          ++ " of type <class '" ++ pyTypeName c ++ "'>"))) := by
  constructor
  · intro f c hfind hcast hval
    simp [setattrProcessor, hl, hv, hf, hp, lossyAutocastHandler,
      validationHandler, hfind, hcast, hval, bind, Except.bind, pure,
      Except.pure]
  · intro f c hfind hcast hval
    simp [setattrProcessor, hl, hv, hf, hp, lossyAutocastHandler,
      validationHandler, hfind, hcast, hval, bind, Except.bind, pure,
      Except.pure]

/-- C3 witness: on a LOSSY_AUTOCAST|VALIDATION type, writing `"5"` to an
`int` field coerces to `5`, validates the coerced value and commits it. -/
theorem claim_C3_witness :
    setattrProcessor [.lossyAutocast, .validation] "P"
      [⟨"x", .nu .intT, none, none⟩] [("x", .vint 1)] "x" (.vstr "5")
      = .ok [("x", .vint 5)] := by
  have hcast : castU (.vstr "5") (.nu .intT) = .ok (.vint 5) := by
    have hp : pyIntOfString "5" = some 5 := rfl
    simp [castU, castN, pyIsInstanceN, hp]
  have h := (claim_C3_coerce_then_validate_then_commit
    [.lossyAutocast, .validation] "P" [⟨"x", .nu .intT, none, none⟩]
    [("x", .vint 1)] "x" (.vstr "5")
    (List.Mem.head _) (List.Mem.tail _ (List.Mem.head _))
    (by simp) (by simp)).1
    ⟨"x", .nu .intT, none, none⟩ (.vint 5) (by rfl) hcast
    (by simp [validateU, validateN, pyIsInstanceN])
  simpa [rawSet] using h

/-- C10 counterexample: a type carrying FROZEN together with VALIDATION
fails to construct from a complete set of keyword arguments when a value
mismatches its shape — the post-population validation hook raises, so
"for every type with the FROZEN flag, construction with a complete set
of keyword arguments succeeds" does not hold as stated. -/
theorem claim_C10_counterexample :
    constructObj [.frozen, .validation] [⟨"x", .nu .intT, none, none⟩]
        [("x", .vstr "no")]
      = .error (.validationError
          [validationErrorMsg "x" (.nu .intT) (.vstr "no")]) := by
  have hinit : initObj [⟨"x", .nu .intT, none, none⟩] [("x", .vstr "no")]
      = .ok [("x", .vstr "no")] := by
    simp [initObj, initLoop, lookupKw, List.find?, rawSet]
  have hval : validateFields [⟨"x", .nu .intT, none, none⟩]
      [("x", .vstr "no")]
      = .error [validationErrorMsg "x" (.nu .intT) (.vstr "no")] := by
    simp [validateFields, validateFieldsErrors, objGet, List.find?,
      validateU, validateN, pyIsInstanceN]
  simp [constructObj, hinit, hval, bind, Except.bind]

/-- C10 (amended): construction stores every field by raw storage,
bypassing the write pipeline; hence a FROZEN type without the separate
VALIDATION/LOSSY_AUTOCAST construction hooks (which act after population
independently of FROZEN, and can reject or rewrite values) constructs
successfully from a complete set of keyword arguments, its fields equal
the supplied values, and afterwards every write through the pipeline
raises — the frozen handler rejecting unconditionally (it is installed
for both `__setattr__` and `__delattr__`). -/
theorem claim_C10_frozen_construction (fs : List Feature)
    (fields : List Field) (kwargs : List (String × Value))
    (className : String)
    (hfz : Feature.frozen ∈ fs) (hv : Feature.validation ∉ fs)
    (hl : Feature.lossyAutocast ∉ fs)
    (hnd : (fields.map Field.name).Nodup)
    (hcomp : ∀ f ∈ fields, (lookupKw kwargs f.name).isSome) :
    (∃ vals, constructObj fs fields kwargs = .ok vals ∧
      ∀ f ∈ fields, ∀ v, lookupKw kwargs f.name = some v →
        objGet vals f.name = v)
    ∧ (∀ vals name value, ∃ e,
        setattrProcessor fs className fields vals name value = .error e)
    ∧ (∀ name value, frozenHandler className name value
        = .error (.frozenError className)) := by
  refine ⟨?_, ?_, fun _ _ => rfl⟩
  · have hmiss : missingNames fields kwargs = [] := by
      rw [missingNames, List.filter_eq_nil_iff.mpr, List.map_nil]
      intro f hf
      obtain ⟨v, hv2⟩ := Option.isSome_iff_exists.mp (hcomp f hf)
      simp [fieldSource, hv2]
    obtain ⟨vals, hok, hget⟩ := initObj_complete fields kwargs hnd hmiss
    refine ⟨vals, ?_, ?_⟩
    · simp [constructObj, hok, hv, hl, bind, Except.bind, pure, Except.pure]
    · intro f hf v hkv
      exact hget f hf v (by simp [fieldSource, hkv])
  · intro vals name value
    by_cases hpv : Feature.priv ∈ fs
    · cases hret : privateNameRetrieval (fields.map Field.name) [] name with
      | ok n2 =>
        exact ⟨.frozenError className, by
          simp [setattrProcessor, hpv, hret, hfz, frozenHandler, bind,
            Except.bind]⟩
      | error e =>
        exact ⟨e, by
          simp [setattrProcessor, hpv, hret, bind, Except.bind]⟩
    · exact ⟨.frozenError className, by
        simp [setattrProcessor, hpv, hfz, frozenHandler, bind, Except.bind]⟩

/-- C10 witness: an IMMUTABLE-style type (`frozen` flag) constructs from
`x=7` and stores `7`; any later pipeline write raises. -/
theorem claim_C10_witness :
    (∃ vals, constructObj [.frozen, .eq, .hash]
        [⟨"x", .nu .intT, none, none⟩] [("x", .vint 7)] = .ok vals ∧
      ∀ f ∈ ([⟨"x", .nu .intT, none, none⟩] : List Field), ∀ v,
        lookupKw [("x", .vint 7)] f.name = some v → objGet vals f.name = v)
    ∧ (∀ vals name value, ∃ e,
        setattrProcessor [.frozen, .eq, .hash] "P"
          [⟨"x", .nu .intT, none, none⟩] vals name value = .error e)
    ∧ (∀ name value, frozenHandler "P" name value
        = .error (.frozenError "P")) :=
  claim_C10_frozen_construction [.frozen, .eq, .hash]
    [⟨"x", .nu .intT, none, none⟩] [("x", .vint 7)] "P"
    (List.Mem.head _) (by decide) (by decide) (by decide)
    (by intro f hf; rcases List.mem_cons.mp hf with rfl | h2
        · decide
        · cases h2)

/-- Values that satisfy a bare `isinstance` against one of the simple
shapes `bool`/`int`/`float`/`str`. -/
def Value.isPrim : Value → Bool
  | .vbool _ | .vint _ | .vfloat _ | .vstr _ => true
  | _ => false

theorem isPrim_of_simple_instance (h : NHint) (v : Value)
    (hsimp : h.isSimple = true) (hnn : h.isNoneT = false)
    (hinst : pyIsInstanceN v h = true) : v.isPrim = true := by
  cases h <;> cases v <;> simp_all [NHint.isSimple, NHint.isNoneT,
    pyIsInstanceN, Value.isPrim]

theorem prim_not_container_instance (h : NHint) (v : Value)
    (hns : h.isSimple = false) (hp : v.isPrim = true) :
    pyIsInstanceN v h = false := by
  cases h <;> cases v <;> simp_all [NHint.isSimple, pyIsInstanceN,
    Value.isPrim]

theorem prim_ne_vnone (v : Value) (hp : v.isPrim = true) : v ≠ .vnone := by
  cases v <;> simp_all [Value.isPrim]

/-- C1 counterexample: `[1]` exactly matches the non-absence member
`list[int]` of `Union[list[str], list[int]]` (VALIDATE accepts it), yet
CAST element-converts it into the earlier same-origin member and returns
`["1"]`, not the value unchanged — union members can be
cross-converted when two generic members share a container origin. -/
theorem claim_C1_counterexample :
    validateU (.vlist [.vint 1]) (.nu (.listT (.nu .intT))) = true
    ∧ NHint.listT (.nu .intT)
        ∈ ([.listT (.nu .strT), .listT (.nu .intT)] : List NHint)
    ∧ castU (.vlist [.vint 1])
        (.union [.listT (.nu .strT), .listT (.nu .intT)])
      = .ok (.vlist [.vstr "1"])
    ∧ Value.vlist [.vstr "1"] ≠ Value.vlist [.vint 1] := by
  refine ⟨?_, List.Mem.tail _ (List.Mem.head _), ?_, by decide⟩
  · simp [validateU, validateN, validElems, pyIsInstanceN]
  · have h1 : pyStr (Value.vint 1) = "1" := rfl
    simp [castU, scan1, castN, castElems, pyIter, pyIsInstanceN,
      NHint.isNoneT, NHint.isSimple, Except.map, h1]

/-- C1 (amended): casting into a union returns the value unchanged when
it exactly matches a *simple* (non-generic) non-absence member; a value
whose container origin matches a generic member is element-cast into the
first such member instead (so exact container matches may still be
converted, as the counterexample shows); the `"42"`/`42.5` scenarios
hold as stated; and when the value matches no member and every member
conversion fails with a coercion failure, the aggregate
cannot-cast-to-any-member error is raised. -/
theorem claim_C1_union_cast_order :
    (∀ (hs : List NHint) (v : Value) (h : NHint), h ∈ hs →
      h.isSimple = true → h.isNoneT = false → pyIsInstanceN v h = true →
      castU v (.union hs) = .ok v)
    ∧ (castU (.vstr "42") (.union [.intT, .strT]) = .ok (.vstr "42")
      ∧ castU (.vfloat (85/2)) (.union [.intT, .strT]) = .ok (.vint 42))
    ∧ (∀ (hs : List NHint) (v : Value), v ≠ .vnone →
      (∀ h ∈ hs, pyIsInstanceN v h = false) →
      (∀ h ∈ hs, ∃ m, castN v h = .error (.typeErr m)) →
      castU v (.union hs) = .error (.typeErr (castingErrorMsg v (.union hs)
        "Cannot cast to any type in Union"))) := by
  refine ⟨?_, ⟨?_, ?_⟩, ?_⟩
  · intro hs v h hmem hsimp hnn hinst
    have hp : v.isPrim = true := isPrim_of_simple_instance h v hsimp hnn hinst
    have hvn : v ≠ .vnone := prim_ne_vnone v hp
    have hscan : scan1 v hs = some (.ok v) := by
      induction hs with
      | nil => cases hmem
      | cons h2 rest ih =>
        by_cases hn2 : h2.isNoneT = true
        · have : h2 ≠ h := fun he => by rw [he, hnn] at hn2; cases hn2
          have hmem2 : h ∈ rest := by
            rcases List.mem_cons.mp hmem with rfl | hm
            · exact absurd rfl this
            · exact hm
          simp [scan1, hn2, ih hmem2]
        · by_cases hs2 : h2.isSimple = true
          · by_cases hi2 : pyIsInstanceN v h2 = true
            · simp [scan1, hn2, hs2, hi2]
            · have hmem2 : h ∈ rest := by
                rcases List.mem_cons.mp hmem with rfl | hm
                · rw [hinst] at hi2; exact absurd rfl hi2
                · exact hm
              simp [scan1, hn2, hs2, hi2, ih hmem2]
          · have hi2 : pyIsInstanceN v h2 = false :=
              prim_not_container_instance h2 v (by simpa using hs2) hp
            have hmem2 : h ∈ rest := by
              rcases List.mem_cons.mp hmem with rfl | hm
              · rw [hsimp] at hs2; exact absurd rfl hs2
              · exact hm
            simp [scan1, hn2, hs2, hi2, ih hmem2]
    simp [castU, hvn, hscan]
  · simp [castU, scan1, castN, pyIsInstanceN, NHint.isNoneT, NHint.isSimple]
  · have htr : pyTruncRat (85/2) = 42 := by
      norm_num [pyTruncRat]
      decide
    simp [castU, scan1, scan2, castN, pyIsInstanceN, NHint.isNoneT,
      NHint.isSimple, htr]
  · intro hs v hvn hninst hfail
    have hscan1 : ∀ l : List NHint, (∀ h ∈ l, pyIsInstanceN v h = false) →
        scan1 v l = none := by
      intro l
      induction l with
      | nil => intro _; simp [scan1]
      | cons h2 rest ih =>
        intro hni
        have ih2 := ih (fun h hm => hni h (List.Mem.tail _ hm))
        by_cases hn2 : h2.isNoneT = true
        · simp [scan1, hn2, ih2]
        · simp [scan1, hn2, hni h2 (List.Mem.head _), ih2]
    have hscan2 : ∀ l : List NHint,
        (∀ h ∈ l, ∃ m, castN v h = .error (.typeErr m)) →
        scan2 v l = none := by
      intro l
      induction l with
      | nil => intro _; simp [scan2]
      | cons h2 rest ih =>
        intro hfl
        have ih2 := ih (fun h hm => hfl h (List.Mem.tail _ hm))
        by_cases hn2 : h2.isNoneT = true
        · simp [scan2, hn2, hvn, ih2]
        · obtain ⟨m, hm⟩ := hfl h2 (List.Mem.head _)
          simp [scan2, hn2, hvn, hm, ih2]
    simp [castU, hvn, hscan1 hs hninst, hscan2 hs hfail]

/-- C1 witness: concrete instantiations of the amended parts — `"42"` is
already the `str` member of `Union[int, str]` and is returned unchanged;
casting `None` into `Union[int, float]` (absence not a member) matches no
member and every member conversion fails, raising the aggregate error. -/
theorem claim_C1_witness :
    castU (.vstr "42") (.union [.intT, .strT]) = .ok (.vstr "42")
    ∧ castU (.vlist []) (.union [.intT, .floatT])
      = .error (.typeErr (castingErrorMsg (.vlist [])
          (.union [.intT, .floatT]) "Cannot cast to any type in Union")) := by
  constructor
  · exact claim_C1_union_cast_order.1 [.intT, .strT] (.vstr "42") .strT
      (List.Mem.tail _ (List.Mem.head _)) rfl rfl rfl
  · exact claim_C1_union_cast_order.2.2 [.intT, .floatT] (.vlist [])
      (by decide)
      (by intro h hm
          rcases List.mem_cons.mp hm with rfl | hm2
          · rfl
          · rcases List.mem_cons.mp hm2 with rfl | hm3
            · rfl
            · cases hm3)
      (by intro h hm
          rcases List.mem_cons.mp hm with rfl | hm2
          · exact ⟨castingErrorMsg (.vlist []) (.nu .intT)
              ("int() argument must not be " ++ pyTypeName (.vlist [])),
              by simp [castN, pyIsInstanceN]⟩
          · rcases List.mem_cons.mp hm2 with rfl | hm3
            · exact ⟨castingErrorMsg (.vlist []) (.nu .floatT)
                ("float() argument must not be " ++ pyTypeName (.vlist [])),
                by simp [castN, pyIsInstanceN]⟩
            · cases hm3)

/-- C4 counterexample: `cast("25", Union[list[bool], list[int]])` fails
the `list[bool]` member (`'2'` is not in the boolean vocabulary) and
succeeds as `[2, 5]` via `list[int]`; recasting `[2, 5]` into the same
union takes the first origin-matching member `list[bool]`, where the
ints now coerce by truthiness to `[True, True]` — so
`cast(cast(v, T), T) ≠ cast(v, T)` although `cast(v, T)` succeeded. -/
theorem claim_C4_counterexample :
    castU (.vstr "25") (.union [.listT (.nu .boolT), .listT (.nu .intT)])
      = .ok (.vlist [.vint 2, .vint 5])
    ∧ castU (.vlist [.vint 2, .vint 5])
        (.union [.listT (.nu .boolT), .listT (.nu .intT)])
      = .ok (.vlist [.vbool true, .vbool true])
    ∧ Value.vlist [.vint 2, .vint 5]
      ≠ Value.vlist [.vbool true, .vbool true] := by
  refine ⟨?_, ?_, by decide⟩
  · have hl2 : pyToLower "2" = "2" := rfl
    have hl5 : pyToLower "5" = "5" := rfl
    have hi2 : pyIntOfString "2" = some 2 := rfl
    have hi5 : pyIntOfString "5" = some 5 := rfl
    have hit : pyIter (.vstr "25") = some [.vstr "2", .vstr "5"] := rfl
    simp [castU, scan1, scan2, castN, castElems, pyIsInstanceN,
      NHint.isNoneT, NHint.isSimple, pyIter, hit, hl2, hl5, hi2, hi5,
      Except.map]
  · have ht2 : pyTruthy (.vint 2) = true := rfl
    have ht5 : pyTruthy (.vint 5) = true := rfl
    simp [castU, scan1, castN, castElems, pyIsInstanceN, NHint.isNoneT,
      NHint.isSimple, pyIter, ht2, ht5, Except.map]

/-! ## Machinery for the amended idempotence claim -/

/-- The container origin (`typing.get_origin`) of a generic shape, as a
tag; `none` for simple shapes. -/
def NHint.originTag : NHint → Option Nat
  | .listT _ => some 5
  | .tupF _ => some 6
  | .tupV _ => some 6
  | .setT _ => some 7
  | .dictT _ _ => some 8
  | _ => none

/-- The container class of a value, as a tag matching `NHint.originTag`;
`none` for non-container values. -/
def Value.valueTag : Value → Option Nat
  | .vlist _ => some 5
  | .vtuple _ => some 6
  | .vset _ => some 7
  | .vdict _ => some 8
  | _ => none

/-- Tag lists without duplicates, in executable form. -/
def noDupTags : List Nat → Bool
  | [] => true
  | t :: ts => decide (t ∉ ts) && noDupTags ts

mutual
/-- No union anywhere in the shape lists two members sharing a container
origin (the hypothesis of the amended idempotence claim). -/
def noDupOriginsN : NHint → Bool
  | .listT h => noDupOriginsU h
  | .setT h => noDupOriginsU h
  | .tupV h => noDupOriginsU h
  | .tupF hs => ndAllU hs
  | .dictT k v => noDupOriginsU k && noDupOriginsU v
  | _ => true

def ndAllU : List UHint → Bool
  | [] => true
  | h :: hs => noDupOriginsU h && ndAllU hs

def ndAllN : List NHint → Bool
  | [] => true
  | h :: hs => noDupOriginsN h && ndAllN hs

def noDupOriginsU : UHint → Bool
  | .nu h => noDupOriginsN h
  | .union hs => noDupTags (hs.filterMap NHint.originTag) && ndAllN hs
end

theorem nhint_size_pos (h : NHint) : 0 < sizeOf h := by
  cases h <;> simp_arith

theorem ndAllU_mem (hs : List UHint) (e : UHint) (hnd : ndAllU hs = true)
    (hm : e ∈ hs) : noDupOriginsU e = true := by
  induction hs with
  | nil => cases hm
  | cons h rest ih =>
    rw [ndAllU, Bool.and_eq_true] at hnd
    rcases List.mem_cons.mp hm with rfl | hm2
    · exact hnd.1
    · exact ih hnd.2 hm2

theorem ndAllN_mem (hs : List NHint) (e : NHint) (hnd : ndAllN hs = true)
    (hm : e ∈ hs) : noDupOriginsN e = true := by
  induction hs with
  | nil => cases hm
  | cons h rest ih =>
    rw [ndAllN, Bool.and_eq_true] at hnd
    rcases List.mem_cons.mp hm with rfl | hm2
    · exact hnd.1
    · exact ih hnd.2 hm2

/-- `isinstance` against a generic shape checks exactly the container
class. -/
theorem inst_container_iff (h : NHint) (t : Nat)
    (hot : h.originTag = some t) (v : Value) :
    pyIsInstanceN v h = true ↔ v.valueTag = some t := by
  cases h <;> cases v <;>
    simp_all [NHint.originTag, Value.valueTag, pyIsInstanceN] <;> omega

/-- A container value never satisfies `isinstance` against a simple
shape. -/
theorem cont_not_simple_inst (v : Value) (t : Nat)
    (hv : v.valueTag = some t) (h : NHint) (hs : h.isSimple = true) :
    pyIsInstanceN v h = false := by
  cases h <;> cases v <;>
    simp_all [Value.valueTag, NHint.isSimple, pyIsInstanceN]

theorem valueTag_ne_vnone (v : Value) (t : Nat) (hv : v.valueTag = some t) :
    v ≠ .vnone := by
  cases v <;> simp_all [Value.valueTag]

/-- A non-simple shape is a container with an origin tag. -/
theorem originTag_of_not_simple (h : NHint) (hns : h.isSimple = false) :
    ∃ t, h.originTag = some t := by
  cases h <;> simp_all [NHint.isSimple, NHint.originTag]

theorem isNoneT_not_simple_false (h : NHint) (hns : h.isSimple = false) :
    h.isNoneT = false := by
  cases h <;> simp_all [NHint.isSimple, NHint.isNoneT]

theorem castN_noneT_ok (v r : Value) (h : castN v .noneT = .ok r) :
    r = .vnone ∧ v = .vnone := by
  cases v <;> simp_all [castN, pyIsInstanceN]

theorem castN_boolT_ok (v r : Value) (h : castN v .boolT = .ok r) :
    pyIsInstanceN r .boolT = true := by
  cases v <;> simp_all [castN, pyIsInstanceN]
  case vbool b => subst h; rfl
  case vstr s =>
    split_ifs at h <;> simp_all
    · subst h; rfl
    · subst h; rfl
  all_goals (subst h; rfl)

theorem castN_intT_ok (v r : Value) (h : castN v .intT = .ok r) :
    pyIsInstanceN r .intT = true := by
  cases v <;> simp_all [castN, pyIsInstanceN]
  case vbool b => subst h; rfl
  case vint n => subst h; rfl
  case vfloat q => subst h; rfl
  case vstr s =>
    cases hp : pyIntOfString s with
    | none => simp [hp] at h
    | some n => simp [hp] at h; subst h; rfl

theorem castN_floatT_ok (v r : Value) (h : castN v .floatT = .ok r) :
    pyIsInstanceN r .floatT = true := by
  cases v <;> simp_all [castN, pyIsInstanceN]
  case vbool b => subst h; rfl
  case vint n => subst h; rfl
  case vfloat q => subst h; rfl
  case vstr s =>
    cases hp : pyFloatOfString s with
    | none => simp [hp] at h
    | some q => simp [hp] at h; subst h; rfl

theorem castN_strT_ok (v r : Value) (h : castN v .strT = .ok r) :
    pyIsInstanceN r .strT = true := by
  cases v <;> simp_all [castN, pyIsInstanceN]
  case vstr s => subst h; rfl
  all_goals (subst h; rfl)

/-- A successful simple-shape cast produces a value that satisfies the
shape's `isinstance`. -/
theorem castN_simple_result (h : NHint) (hsimp : h.isSimple = true)
    (v r : Value) (hc : castN v h = .ok r) : pyIsInstanceN r h = true := by
  cases h
  case noneT => rw [(castN_noneT_ok v r hc).1]; rfl
  case boolT => exact castN_boolT_ok v r hc
  case intT => exact castN_intT_ok v r hc
  case floatT => exact castN_floatT_ok v r hc
  case strT => exact castN_strT_ok v r hc
  all_goals simp_all [NHint.isSimple]

/-- An `isinstance`-satisfying value is returned unchanged by the simple
caster. -/
theorem castN_simple_instance_ok (h : NHint) (hsimp : h.isSimple = true)
    (v : Value) (hinst : pyIsInstanceN v h = true) : castN v h = .ok v := by
  cases h
  case noneT => cases v <;> simp_all [castN, pyIsInstanceN]
  case boolT => cases v <;> simp_all [castN, pyIsInstanceN]
  case intT => cases v <;> simp_all [castN, pyIsInstanceN]
  case floatT => cases v <;> simp_all [castN, pyIsInstanceN]
  case strT => cases v <;> simp_all [castN, pyIsInstanceN]
  all_goals simp_all [NHint.isSimple]

theorem castN_listT_ok (e : UHint) (v r : Value)
    (h : castN v (.listT e) = .ok r) :
    ∃ xs rs, pyIter v = some xs ∧ castElems xs e = .ok rs
      ∧ r = .vlist rs := by
  cases hiter : pyIter v with
  | none => simp [castN, hiter] at h
  | some xs =>
    cases helems : castElems xs e with
    | error er => simp [castN, hiter, helems, Except.map] at h
    | ok rs =>
      simp [castN, hiter, helems, Except.map] at h
      exact ⟨xs, rs, rfl, helems, h.symm⟩

theorem castN_setT_ok (e : UHint) (v r : Value)
    (h : castN v (.setT e) = .ok r) :
    ∃ xs rs, pyIter v = some xs ∧ castElems xs e = .ok rs
      ∧ r = .vset (setOf rs) := by
  cases hiter : pyIter v with
  | none => simp [castN, hiter] at h
  | some xs =>
    cases helems : castElems xs e with
    | error er => simp [castN, hiter, helems, Except.map] at h
    | ok rs =>
      simp [castN, hiter, helems, Except.map] at h
      exact ⟨xs, rs, rfl, helems, h.symm⟩

theorem castN_tupV_ok (e : UHint) (v r : Value)
    (h : castN v (.tupV e) = .ok r) :
    ∃ xs rs, pyIter v = some xs ∧ castElems xs e = .ok rs
      ∧ r = .vtuple rs := by
  cases hiter : pyIter v with
  | none => simp [castN, hiter] at h
  | some xs =>
    cases helems : castElems xs e with
    | error er => simp [castN, hiter, helems, Except.map] at h
    | ok rs =>
      simp [castN, hiter, helems, Except.map] at h
      exact ⟨xs, rs, rfl, helems, h.symm⟩

theorem castN_tupF_ok (es : List UHint) (v r : Value)
    (h : castN v (.tupF es) = .ok r) :
    ∃ xs rs, pyIter v = some xs ∧ xs.length = es.length
      ∧ castZip xs es = .ok rs ∧ r = .vtuple rs := by
  cases hiter : pyIter v with
  | none => simp [castN, hiter] at h
  | some xs =>
    by_cases hlen : xs.length = es.length
    · cases hzip : castZip xs es with
      | error er => simp [castN, hiter, hlen, hzip, Except.map] at h
      | ok rs =>
        simp [castN, hiter, hlen, hzip, Except.map] at h
        exact ⟨xs, rs, rfl, hlen, hzip, h.symm⟩
    · simp [castN, hiter, hlen] at h

theorem castN_dictT_ok (hk hv : UHint) (v r : Value)
    (h : castN v (.dictT hk hv) = .ok r) :
    ∃ ps res, v = .vdict ps ∧ castPairs ps hk hv [] = .ok res
      ∧ r = .vdict res := by
  cases v <;> (try (simp [castN] at h))
  case vdict ps =>
    cases hres : castPairs ps hk hv [] with
    | error er => simp [castN, hres, Except.map] at h
    | ok res =>
      simp [castN, hres, Except.map] at h
      exact ⟨ps, res, rfl, hres, h.symm⟩

/-- A successful generic-shape cast produces a value of that shape's
container class. -/
theorem castN_tag (h : NHint) (t : Nat) (hot : h.originTag = some t)
    (v r : Value) (hc : castN v h = .ok r) : r.valueTag = some t := by
  cases h <;> simp_all [NHint.originTag]
  case listT e =>
    obtain ⟨_, _, _, _, rfl⟩ := castN_listT_ok e v r hc
    simp [Value.valueTag]
    omega
  case setT e =>
    obtain ⟨_, _, _, _, rfl⟩ := castN_setT_ok e v r hc
    simp [Value.valueTag]
    omega
  case tupF es =>
    obtain ⟨_, _, _, _, _, rfl⟩ := castN_tupF_ok es v r hc
    simp [Value.valueTag]
    omega
  case tupV e =>
    obtain ⟨_, _, _, _, rfl⟩ := castN_tupV_ok e v r hc
    simp [Value.valueTag]
    omega
  case dictT hk hv2 =>
    obtain ⟨_, _, _, _, rfl⟩ := castN_dictT_ok hk hv2 v r hc
    simp [Value.valueTag]
    omega

theorem castElems_mem (e : UHint) : ∀ xs rs, castElems xs e = .ok rs →
    ∀ r2 ∈ rs, ∃ x, castU x e = .ok r2 := by
  intro xs
  induction xs with
  | nil =>
    intro rs h r2 hr2
    simp [castElems] at h
    subst h
    cases hr2
  | cons x rest ih =>
    intro rs h r2 hr2
    cases hcx : castU x e with
    | error er => simp [castElems, hcx] at h
    | ok r0 =>
      cases hcr : castElems rest e with
      | error er => simp [castElems, hcx, hcr] at h
      | ok rs0 =>
        simp [castElems, hcx, hcr] at h
        subst h
        rcases List.mem_cons.mp hr2 with rfl | hm
        · exact ⟨x, hcx⟩
        · exact ih rs0 hcr r2 hm

theorem castElems_fixed (e : UHint) : ∀ xs, (∀ x ∈ xs, castU x e = .ok x) →
    castElems xs e = .ok xs := by
  intro xs
  induction xs with
  | nil => intro _; simp [castElems]
  | cons x rest ih =>
    intro hall
    simp [castElems, hall x (List.Mem.head _),
      ih (fun y hy => hall y (List.Mem.tail _ hy))]

theorem castZip_len : ∀ (xs : List Value) (hs : List UHint) rs,
    castZip xs hs = .ok rs → rs.length = min xs.length hs.length := by
  intro xs
  induction xs with
  | nil =>
    intro hs rs h
    simp [castZip] at h
    subst h
    simp
  | cons x rest ih =>
    intro hs rs h
    cases hs with
    | nil =>
      simp [castZip] at h
      subst h
      simp
    | cons e hs2 =>
      cases hcx : castU x e with
      | error er => simp [castZip, hcx] at h
      | ok r0 =>
        cases hcr : castZip rest hs2 with
        | error er => simp [castZip, hcx, hcr] at h
        | ok rs0 =>
          simp [castZip, hcx, hcr] at h
          subst h
          simp [ih hs2 rs0 hcr]
          omega

theorem castZip_idem (hs : List UHint)
    (hfix : ∀ e ∈ hs, ∀ v r, castU v e = .ok r → castU r e = .ok r) :
    ∀ xs rs, castZip xs hs = .ok rs → castZip rs hs = .ok rs := by
  induction hs with
  | nil =>
    intro xs rs h
    cases xs <;> simp [castZip] at h <;> subst h <;> simp [castZip]
  | cons e hs2 ih =>
    intro xs rs h
    cases xs with
    | nil =>
      simp [castZip] at h
      subst h
      simp [castZip]
    | cons x rest =>
      cases hcx : castU x e with
      | error er => simp [castZip, hcx] at h
      | ok r0 =>
        cases hcr : castZip rest hs2 with
        | error er => simp [castZip, hcx, hcr] at h
        | ok rs0 =>
          simp [castZip, hcx, hcr] at h
          subst h
          have h1 : castU r0 e = .ok r0 :=
            hfix e (List.Mem.head _) x r0 hcx
          have h2 : castZip rs0 hs2 = .ok rs0 :=
            ih (fun e2 he2 => hfix e2 (List.Mem.tail _ he2)) rest rs0 hcr
          simp [castZip, h1, h2]

theorem mem_foldl_setAdd : ∀ (xs : List Value) acc y,
    y ∈ xs.foldl setAdd acc ↔ y ∈ acc ∨ y ∈ xs := by
  intro xs
  induction xs with
  | nil => simp
  | cons x rest ih =>
    intro acc y
    simp only [List.foldl_cons, ih]
    constructor
    · rintro (hy | hy)
      · by_cases hx : x ∈ acc
        · simp [setAdd, hx] at hy
          exact Or.inl hy
        · simp [setAdd, hx] at hy
          rcases hy with hy | rfl
          · exact Or.inl hy
          · exact Or.inr (List.Mem.head _)
      · exact Or.inr (List.Mem.tail _ hy)
    · rintro (hy | hy)
      · left
        by_cases hx : x ∈ acc <;> simp [setAdd, hx, hy]
      · rcases List.mem_cons.mp hy with rfl | hy2
        · left
          by_cases hx : y ∈ acc <;> simp [setAdd, hx]
        · exact Or.inr hy2

theorem foldl_setAdd_nodup : ∀ (xs : List Value) acc, acc.Nodup →
    (xs.foldl setAdd acc).Nodup := by
  intro xs
  induction xs with
  | nil => intro acc h; exact h
  | cons x rest ih =>
    intro acc h
    simp only [List.foldl_cons]
    apply ih
    by_cases hx : x ∈ acc
    · simpa [setAdd, hx] using h
    · simp [setAdd, hx, List.nodup_append, h, hx]

theorem foldl_setAdd_eq_self : ∀ (xs : List Value) acc, acc.Nodup →
    xs.Nodup → (∀ x ∈ xs, x ∉ acc) → xs.foldl setAdd acc = acc ++ xs := by
  intro xs
  induction xs with
  | nil => intro acc _ _ _; simp
  | cons x rest ih =>
    intro acc hacc hxs hdisj
    have hx : x ∉ acc := hdisj x (List.Mem.head _)
    simp only [List.foldl_cons, setAdd, hx, if_false, if_neg,
      not_false_eq_true]
    rw [ih (acc ++ [x])
      (by simp [List.nodup_append, hacc, hx])
      ((List.nodup_cons.mp hxs).2)
      (by
        intro y hy
        simp only [List.mem_append, List.mem_singleton]
        rintro (hy2 | rfl)
        · exact hdisj y (List.Mem.tail _ hy) hy2
        · exact (List.nodup_cons.mp hxs).1 hy)]
    simp

theorem mem_setOf (xs : List Value) (y : Value) : y ∈ setOf xs ↔ y ∈ xs := by
  simp [setOf, mem_foldl_setAdd]

theorem setOf_nodup (xs : List Value) : (setOf xs).Nodup :=
  foldl_setAdd_nodup xs [] List.nodup_nil

theorem setOf_idem (xs : List Value) : setOf (setOf xs) = setOf xs := by
  have := foldl_setAdd_eq_self (setOf xs) [] List.nodup_nil (setOf_nodup xs)
    (by simp)
  simpa [setOf] using this

theorem any_key_iff (d : List (Value × Value)) (k : Value) :
    d.any (fun p => p.1 = k) = true ↔ k ∈ d.map Prod.fst := by
  simp [List.any_eq_true, List.mem_map]

theorem mem_dictInsert (d : List (Value × Value)) (k v : Value)
    (p : Value × Value) (hp : p ∈ dictInsert d k v) :
    p ∈ d ∨ p = (k, v) ∨ ∃ q ∈ d, p = (q.1, v) := by
  by_cases hany : d.any (fun q => q.1 = k) = true
  · simp only [dictInsert, hany, if_true, List.mem_map] at hp
    obtain ⟨q, hq, hpe⟩ := hp
    by_cases hqk : q.1 = k
    · simp only [hqk, if_pos] at hpe
      exact Or.inr (Or.inr ⟨q, hq, by rw [hqk]; exact hpe.symm⟩)
    · simp only [hqk, if_neg, if_false] at hpe
      exact Or.inl (hpe ▸ hq)
  · simp only [dictInsert, hany, if_false, Bool.false_eq_true,
      List.mem_append, List.mem_singleton] at hp
    rcases hp with hp | hp
    · exact Or.inl hp
    · exact Or.inr (Or.inl hp)

theorem dictInsert_keys (d : List (Value × Value)) (k v : Value)
    (hnd : (d.map Prod.fst).Nodup) :
    ((dictInsert d k v).map Prod.fst).Nodup := by
  by_cases hany : d.any (fun q => q.1 = k) = true
  · have : (dictInsert d k v).map Prod.fst = d.map Prod.fst := by
      simp only [dictInsert, hany, if_true, List.map_map]
      apply List.map_congr_left
      intro q _
      by_cases hqk : q.1 = k <;> simp [hqk]
    rw [this]
    exact hnd
  · have hk : k ∉ d.map Prod.fst := fun hm => hany ((any_key_iff d k).mpr hm)
    simp only [dictInsert, hany, if_false, Bool.false_eq_true, List.map_append]
    simp [List.nodup_append, hnd, hk]

theorem dictInsert_append (d : List (Value × Value)) (k v : Value)
    (h : ¬d.any (fun q => q.1 = k) = true) :
    dictInsert d k v = d ++ [(k, v)] := by
  simp [dictInsert, h]

theorem castPairs_K (hk hv : UHint)
    (hfixK : ∀ v r, castU v hk = .ok r → castU r hk = .ok r)
    (hfixV : ∀ v r, castU v hv = .ok r → castU r hv = .ok r) :
    ∀ ps acc res, castPairs ps hk hv acc = .ok res →
      (∀ p ∈ acc, castU p.1 hk = .ok p.1 ∧ castU p.2 hv = .ok p.2) →
      ∀ p ∈ res, castU p.1 hk = .ok p.1 ∧ castU p.2 hv = .ok p.2 := by
  intro ps
  induction ps with
  | nil =>
    intro acc res h hacc
    simp [castPairs] at h
    subst h
    exact hacc
  | cons p rest ih =>
    obtain ⟨k, v⟩ := p
    intro acc res h hacc
    cases hck : castU k hk with
    | error er => simp [castPairs, hck] at h
    | ok k2 =>
      cases hcv : castU v hv with
      | error er => simp [castPairs, hck, hcv] at h
      | ok v2 =>
        simp only [castPairs, hck, hcv] at h
        refine ih (dictInsert acc k2 v2) res h ?_
        intro q hq
        rcases mem_dictInsert acc k2 v2 q hq with hq2 | rfl | ⟨q0, hq0, rfl⟩
        · exact hacc q hq2
        · exact ⟨hfixK k k2 hck, hfixV v v2 hcv⟩
        · exact ⟨(hacc q0 hq0).1, hfixV v v2 hcv⟩

theorem castPairs_keys_nodup (hk hv : UHint) :
    ∀ ps acc res, castPairs ps hk hv acc = .ok res →
      (acc.map Prod.fst).Nodup → (res.map Prod.fst).Nodup := by
  intro ps
  induction ps with
  | nil =>
    intro acc res h hacc
    simp [castPairs] at h
    subst h
    exact hacc
  | cons p rest ih =>
    obtain ⟨k, v⟩ := p
    intro acc res h hacc
    cases hck : castU k hk with
    | error er => simp [castPairs, hck] at h
    | ok k2 =>
      cases hcv : castU v hv with
      | error er => simp [castPairs, hck, hcv] at h
      | ok v2 =>
        simp only [castPairs, hck, hcv] at h
        exact ih (dictInsert acc k2 v2) res h (dictInsert_keys acc k2 v2 hacc)

theorem castPairs_fixed (hk hv : UHint) :
    ∀ ps acc, (∀ p ∈ ps, castU p.1 hk = .ok p.1 ∧ castU p.2 hv = .ok p.2) →
      ((acc ++ ps).map Prod.fst).Nodup →
      castPairs ps hk hv acc = .ok (acc ++ ps) := by
  intro ps
  induction ps with
  | nil => intro acc _ _; simp [castPairs]
  | cons p rest ih =>
    obtain ⟨k, v⟩ := p
    intro acc hall hnd
    have hK := hall (k, v) (List.Mem.head _)
    have hkn : k ∉ acc.map Prod.fst := by
      intro hm
      have hnd2 := hnd
      rw [List.map_append, List.map_cons, List.nodup_append] at hnd2
      exact hnd2.2.2 hm (List.mem_cons_self _ _)
    have hins : dictInsert acc k v = acc ++ [(k, v)] :=
      dictInsert_append acc k v (fun ha => hkn ((any_key_iff acc k).mp ha))
    simp only [castPairs, hK.1, hK.2, hins]
    have := ih (acc ++ [(k, v)])
      (fun q hq => hall q (List.Mem.tail _ hq))
      (by simpa using hnd)
    simpa using this

/-- What the first union loop can return: either the value itself
(already-a-member, or origin-matched with failing element cast), or the
element-cast of the value into the first origin-matching member — a
value of the same container class, on which the loop stops at the same
member again. -/
theorem scan1_idem (l : List NHint)
    (hfix : ∀ h ∈ l, ∀ v2 r2, castN v2 h = .ok r2 → castN r2 h = .ok r2)
    (v r : Value) (hsc : scan1 v l = some (.ok r)) :
    r = v ∨ ∃ t, v.valueTag = some t ∧ r.valueTag = some t
      ∧ scan1 r l = some (.ok r) := by
  induction l with
  | nil => simp [scan1] at hsc
  | cons h rest ih =>
    have hfixrest : ∀ h2 ∈ rest, ∀ v2 r2, castN v2 h2 = .ok r2 →
        castN r2 h2 = .ok r2 :=
      fun h2 hm => hfix h2 (List.Mem.tail _ hm)
    by_cases hn : h.isNoneT = true
    · simp only [scan1, hn, if_true] at hsc
      rcases ih hfixrest hsc with hl | ⟨t, hv, hr, hsrest⟩
      · exact Or.inl hl
      · exact Or.inr ⟨t, hv, hr, by simp [scan1, hn, hsrest]⟩
    · by_cases hs : h.isSimple = true
      · by_cases hi : pyIsInstanceN v h = true
        · simp only [scan1, hn, hs, hi, if_true, if_false, Bool.false_eq_true,
            Option.some.injEq, Except.ok.injEq] at hsc
          exact Or.inl hsc.symm
        · simp only [scan1, hn, hs, hi, if_true, if_false, Bool.false_eq_true]
            at hsc
          rcases ih hfixrest hsc with hl | ⟨t, hv, hr, hsrest⟩
          · exact Or.inl hl
          · have hir : pyIsInstanceN r h = false :=
              cont_not_simple_inst r t hr h hs
            exact Or.inr ⟨t, hv, hr, by simp [scan1, hn, hs, hir, hsrest]⟩
      · have hsf : h.isSimple = false := by
          cases hh : h.isSimple
          · rfl
          · exact absurd hh hs
        obtain ⟨t0, hot⟩ := originTag_of_not_simple h hsf
        by_cases hi : pyIsInstanceN v h = true
        · cases hcN : castN v h with
          | ok r0 =>
            simp only [scan1, hn, hs, hi, hcN, if_true, if_false,
              Bool.false_eq_true, Option.some.injEq] at hsc
            have hr0 : r0 = r := by injection hsc with he
            subst hr0
            refine Or.inr ⟨t0, (inst_container_iff h t0 hot v).mp hi,
              castN_tag h t0 hot v r0 hcN, ?_⟩
            have hir : pyIsInstanceN r0 h = true :=
              (inst_container_iff h t0 hot r0).mpr
                (castN_tag h t0 hot v r0 hcN)
            have hcr : castN r0 h = .ok r0 := hfix h (List.Mem.head _) v r0 hcN
            simp [scan1, hn, hs, hir, hcr]
          | error er =>
            cases er with
            | typeErr m =>
              simp only [scan1, hn, hs, hi, hcN, if_true, if_false,
                Bool.false_eq_true, Option.some.injEq, Except.ok.injEq] at hsc
              exact Or.inl hsc.symm
            | attrErr m =>
              simp [scan1, hn, hs, hi, hcN] at hsc
        · simp only [scan1, hn, hs, hi, if_true, if_false, Bool.false_eq_true]
            at hsc
          rcases ih hfixrest hsc with hl | ⟨t, hv, hr, hsrest⟩
          · exact Or.inl hl
          · have hir : pyIsInstanceN r h = false := by
              cases hri : pyIsInstanceN r h
              · rfl
              · exfalso
                have ht0 : r.valueTag = some t0 :=
                  (inst_container_iff h t0 hot r).mp hri
                rw [hr] at ht0
                injection ht0 with ht0
                subst ht0
                exact absurd ((inst_container_iff h t hot v).mpr hv) (by
                  simp [hi])
            exact Or.inr ⟨t, hv, hr, by simp [scan1, hn, hs, hir, hsrest]⟩

/-- A successful second union loop names a member whose full cast of the
value succeeded. -/
theorem scan2_exists (l : List NHint) (v r : Value)
    (hsc : scan2 v l = some (.ok r)) :
    ∃ h ∈ l, castN v h = .ok r
      ∧ ¬(h.isNoneT = true ∧ v ≠ .vnone) := by
  induction l with
  | nil => simp [scan2] at hsc
  | cons h rest ih =>
    simp only [scan2] at hsc
    by_cases hcond : h.isNoneT = true ∧ v ≠ .vnone
    · rw [if_pos hcond] at hsc
      obtain ⟨h2, hm, hc, hnc⟩ := ih hsc
      exact ⟨h2, List.Mem.tail _ hm, hc, hnc⟩
    · rw [if_neg hcond] at hsc
      cases hcN : castN v h with
      | ok r0 =>
        rw [hcN] at hsc
        simp only [Option.some.injEq, Except.ok.injEq] at hsc
        subst hsc
        exact ⟨h, List.Mem.head _, hcN, hcond⟩
      | error er =>
        cases er with
        | typeErr m =>
          rw [hcN] at hsc
          obtain ⟨h2, hm, hc, hnc⟩ := ih hsc
          exact ⟨h2, List.Mem.tail _ hm, hc, hnc⟩
        | attrErr m =>
          rw [hcN] at hsc
          simp at hsc

/-- A primitive value satisfying some simple non-absence member is
returned unchanged by the first union loop. -/
theorem scan1_finds_simple (r : Value) (hp : r.isPrim = true) :
    ∀ l : List NHint, (∃ h ∈ l, h.isNoneT = false ∧ h.isSimple = true
      ∧ pyIsInstanceN r h = true) → scan1 r l = some (.ok r) := by
  intro l
  induction l with
  | nil => rintro ⟨h, hm, _⟩; cases hm
  | cons h2 rest ih =>
    rintro ⟨h, hm, hnn, hsi, hin⟩
    by_cases hn2 : h2.isNoneT = true
    · have hm2 : h ∈ rest := by
        rcases List.mem_cons.mp hm with rfl | hm2
        · rw [hnn] at hn2; cases hn2
        · exact hm2
      simp [scan1, hn2, ih ⟨h, hm2, hnn, hsi, hin⟩]
    · by_cases hs2 : h2.isSimple = true
      · by_cases hi2 : pyIsInstanceN r h2 = true
        · simp [scan1, hn2, hs2, hi2]
        · have hm2 : h ∈ rest := by
            rcases List.mem_cons.mp hm with rfl | hm2
            · rw [hin] at hi2; exact absurd rfl hi2
            · exact hm2
          simp [scan1, hn2, hs2, hi2, ih ⟨h, hm2, hnn, hsi, hin⟩]
      · have hs2f : h2.isSimple = false := by
          cases hh : h2.isSimple
          · rfl
          · exact absurd hh hs2
        have hi2 : pyIsInstanceN r h2 = false :=
          prim_not_container_instance h2 r hs2f hp
        have hm2 : h ∈ rest := by
          rcases List.mem_cons.mp hm with rfl | hm2
          · rw [hsi] at hs2f; cases hs2f
          · exact hm2
        simp [scan1, hn2, hs2, hi2, ih ⟨h, hm2, hnn, hsi, hin⟩]

/-- A container value on which its (unique, by the no-duplicate-origin
hypothesis) origin-matching member's cast is the identity is returned
unchanged by the first union loop. -/
theorem scan1_finds_container (r : Value) (t : Nat)
    (hr : r.valueTag = some t) :
    ∀ l : List NHint, noDupTags (l.filterMap NHint.originTag) = true →
    ∀ h, h ∈ l → h.originTag = some t → castN r h = .ok r →
    scan1 r l = some (.ok r) := by
  intro l
  induction l with
  | nil => intro _ h hm; cases hm
  | cons h2 rest ih =>
    intro hnd h hm hot hcr
    by_cases hn2 : h2.isNoneT = true
    · have hno2 : h2.originTag = none := by
        cases h2 <;> simp_all [NHint.isNoneT, NHint.originTag]
      have hm2 : h ∈ rest := by
        rcases List.mem_cons.mp hm with rfl | hm2
        · rw [hot] at hno2; cases hno2
        · exact hm2
      have hnd2 : noDupTags (rest.filterMap NHint.originTag) = true := by
        simpa [List.filterMap_cons, hno2] using hnd
      simp [scan1, hn2, ih hnd2 h hm2 hot hcr]
    · by_cases hs2 : h2.isSimple = true
      · have hno2 : h2.originTag = none := by
          cases h2 <;> simp_all [NHint.isSimple, NHint.originTag]
        have hi2 : pyIsInstanceN r h2 = false :=
          cont_not_simple_inst r t hr h2 hs2
        have hm2 : h ∈ rest := by
          rcases List.mem_cons.mp hm with rfl | hm2
          · rw [hot] at hno2; cases hno2
          · exact hm2
        have hnd2 : noDupTags (rest.filterMap NHint.originTag) = true := by
          simpa [List.filterMap_cons, hno2] using hnd
        simp [scan1, hn2, hs2, hi2, ih hnd2 h hm2 hot hcr]
      · have hs2f : h2.isSimple = false := by
          cases hh : h2.isSimple
          · rfl
          · exact absurd hh hs2
        obtain ⟨t2, hot2⟩ := originTag_of_not_simple h2 hs2f
        have hfm : (h2 :: rest).filterMap NHint.originTag
            = t2 :: rest.filterMap NHint.originTag := by
          simp [List.filterMap_cons, hot2]
        rw [hfm, noDupTags, Bool.and_eq_true, decide_eq_true_eq] at hnd
        by_cases hi2 : pyIsInstanceN r h2 = true
        · have ht2 : r.valueTag = some t2 :=
            (inst_container_iff h2 t2 hot2 r).mp hi2
          rw [hr] at ht2
          injection ht2 with ht2
          rcases List.mem_cons.mp hm with rfl | hm2
          · simp [scan1, hn2, hs2, hi2, hcr]
          · exact absurd
              (List.mem_filterMap.mpr ⟨h, hm2, by rw [hot, ht2]⟩) hnd.1
        · have hm2 : h ∈ rest := by
            rcases List.mem_cons.mp hm with rfl | hm2
            · rw [hot] at hot2
              injection hot2 with ht2
              exact absurd ((inst_container_iff h t (by rw [hot, ht2]) r).mpr
                (by rw [hr, ht2])) (by simp [hi2])
            · exact hm2
          simp [scan1, hn2, hs2, hi2, ih hnd.2 h hm2 hot hcr]

/-- Building a successful union cast from a successful first loop. -/
theorem castU_union_of_scan1 (hs : List NHint) (v r : Value)
    (hntop : ¬(v = .vnone ∧ hs.any NHint.isNoneT = true))
    (h1 : scan1 v hs = some (.ok r)) :
    castU v (.union hs) = .ok r := by
  simp only [castU]
  rw [if_neg hntop, h1]

/-- Destructing a successful union cast (absence guard not taken): the
first loop returned it, or the first loop found nothing and the second
returned it. -/
theorem castU_union_ok (hs : List NHint) (v r : Value)
    (hntop : ¬(v = .vnone ∧ hs.any NHint.isNoneT = true))
    (hc : castU v (.union hs) = .ok r) :
    scan1 v hs = some (.ok r)
      ∨ (scan1 v hs = none ∧ scan2 v hs = some (.ok r)) := by
  simp only [castU] at hc
  rw [if_neg hntop] at hc
  cases hs1 : scan1 v hs with
  | some x =>
    rw [hs1] at hc
    left
    exact congrArg some (hc : x = .ok r)
  | none =>
    rw [hs1] at hc
    cases hs2 : scan2 v hs with
    | some y =>
      rw [hs2] at hc
      right
      exact ⟨rfl, congrArg some (hc : y = .ok r)⟩
    | none =>
      rw [hs2] at hc
      have hcontra : (Except.error (CastErr.typeErr (castingErrorMsg v
          (.union hs) "Cannot cast to any type in Union"))
          : Except CastErr Value) = .ok r := hc
      cases hcontra

/-- Idempotence of the caster under the no-duplicate-container-origins
side condition, by strong induction on the size of the shape. -/
theorem cast_idem_main : ∀ n : Nat,
    (∀ h : NHint, sizeOf h ≤ n → ∀ v r, noDupOriginsN h = true →
      castN v h = .ok r → castN r h = .ok r)
    ∧ (∀ u : UHint, sizeOf u ≤ n → ∀ v r, noDupOriginsU u = true →
      castU v u = .ok r → castU r u = .ok r) := by
  intro n
  induction n with
  | zero =>
    constructor
    · intro h hsz
      exact absurd hsz (by have := nhint_size_pos h; omega)
    · intro u hsz
      exact absurd hsz (by have := uhint_size_pos u; omega)
  | succ n ih =>
    obtain ⟨ihN, ihU⟩ := ih
    constructor
    · intro h hsize v r hnd hc
      cases h with
      | noneT =>
        obtain ⟨rfl, rfl⟩ := castN_noneT_ok v r hc
        simp [castN, pyIsInstanceN]
      | boolT =>
        exact castN_simple_instance_ok .boolT rfl r (castN_boolT_ok v r hc)
      | intT =>
        exact castN_simple_instance_ok .intT rfl r (castN_intT_ok v r hc)
      | floatT =>
        exact castN_simple_instance_ok .floatT rfl r (castN_floatT_ok v r hc)
      | strT =>
        exact castN_simple_instance_ok .strT rfl r (castN_strT_ok v r hc)
      | listT e =>
        obtain ⟨xs, rs, hiter, helems, rfl⟩ := castN_listT_ok e v r hc
        have hse : sizeOf e ≤ n := by simp at hsize; omega
        have hnde : noDupOriginsU e = true := by
          simpa [noDupOriginsN] using hnd
        have hel : ∀ x ∈ rs, castU x e = .ok x := by
          intro x hx
          obtain ⟨x0, hx0⟩ := castElems_mem e xs rs helems x hx
          exact ihU e hse x0 x hnde hx0
        simp [castN, pyIter, castElems_fixed e rs hel, Except.map]
      | setT e =>
        obtain ⟨xs, rs, hiter, helems, rfl⟩ := castN_setT_ok e v r hc
        have hse : sizeOf e ≤ n := by simp at hsize; omega
        have hnde : noDupOriginsU e = true := by
          simpa [noDupOriginsN] using hnd
        have hel : ∀ x ∈ setOf rs, castU x e = .ok x := by
          intro x hx
          obtain ⟨x0, hx0⟩ := castElems_mem e xs rs helems x
            ((mem_setOf rs x).mp hx)
          exact ihU e hse x0 x hnde hx0
        simp [castN, pyIter, castElems_fixed e (setOf rs) hel, Except.map,
          setOf_idem]
      | tupV e =>
        obtain ⟨xs, rs, hiter, helems, rfl⟩ := castN_tupV_ok e v r hc
        have hse : sizeOf e ≤ n := by simp at hsize; omega
        have hnde : noDupOriginsU e = true := by
          simpa [noDupOriginsN] using hnd
        have hel : ∀ x ∈ rs, castU x e = .ok x := by
          intro x hx
          obtain ⟨x0, hx0⟩ := castElems_mem e xs rs helems x hx
          exact ihU e hse x0 x hnde hx0
        simp [castN, pyIter, castElems_fixed e rs hel, Except.map]
      | tupF es =>
        obtain ⟨xs, rs, hiter, hlen, hzip, rfl⟩ := castN_tupF_ok es v r hc
        have hrs_len : rs.length = es.length := by
          rw [castZip_len xs es rs hzip, hlen]
          simp
        have hfix : ∀ e ∈ es, ∀ v2 r2, castU v2 e = .ok r2 →
            castU r2 e = .ok r2 := by
          intro e he
          have hlt : sizeOf e < sizeOf es := List.sizeOf_lt_of_mem he
          have hse : sizeOf e ≤ n := by simp at hsize; omega
          have hnde : noDupOriginsU e = true :=
            ndAllU_mem es e (by simpa [noDupOriginsN] using hnd) he
          exact fun v2 r2 => ihU e hse v2 r2 hnde
        simp [castN, pyIter, hrs_len, castZip_idem es hfix xs rs hzip,
          Except.map]
      | dictT hk hv =>
        obtain ⟨ps, res, rfl, hres, rfl⟩ := castN_dictT_ok hk hv v r hc
        simp only [noDupOriginsN, Bool.and_eq_true] at hnd
        have hsz : sizeOf hk ≤ n ∧ sizeOf hv ≤ n := by
          simp at hsize
          have := uhint_size_pos hk
          have := uhint_size_pos hv
          omega
        have hfixK : ∀ v2 r2, castU v2 hk = .ok r2 → castU r2 hk = .ok r2 :=
          fun v2 r2 => ihU hk hsz.1 v2 r2 hnd.1
        have hfixV : ∀ v2 r2, castU v2 hv = .ok r2 → castU r2 hv = .ok r2 :=
          fun v2 r2 => ihU hv hsz.2 v2 r2 hnd.2
        have hKall : ∀ p ∈ res, castU p.1 hk = .ok p.1
            ∧ castU p.2 hv = .ok p.2 :=
          castPairs_K hk hv hfixK hfixV ps [] res hres
            (by intro p hp; cases hp)
        have hnodup : (res.map Prod.fst).Nodup :=
          castPairs_keys_nodup hk hv ps [] res hres (by simp)
        have hfixed := castPairs_fixed hk hv res [] hKall
          (by simpa using hnodup)
        simp only [List.nil_append] at hfixed
        simp [castN, hfixed, Except.map]
    · intro u hsize v r hnd hc
      cases u with
      | nu h =>
        have hsh : sizeOf h ≤ n := by simp at hsize; omega
        have hndh : noDupOriginsN h = true := by
          simpa [noDupOriginsU] using hnd
        have hc2 : castN v h = .ok r := by simpa [castU] using hc
        simpa [castU] using ihN h hsh v r hndh hc2
      | union hs =>
        have hc0 := hc
        simp only [noDupOriginsU, Bool.and_eq_true] at hnd
        obtain ⟨hndtags, hndall⟩ := hnd
        have hfix : ∀ h2 ∈ hs, ∀ v2 r2, castN v2 h2 = .ok r2 →
            castN r2 h2 = .ok r2 := by
          intro h2 hm v2 r2 hc2
          have hlt : sizeOf h2 < sizeOf hs := List.sizeOf_lt_of_mem hm
          have hsh : sizeOf h2 ≤ n := by simp at hsize; omega
          exact ihN h2 hsh v2 r2 (ndAllN_mem hs h2 hndall hm) hc2
        by_cases htop : v = .vnone ∧ hs.any NHint.isNoneT = true
        · have hr : r = .vnone := by
            simp only [castU] at hc
            rw [if_pos htop] at hc
            injection hc with he
            exact he.symm
          subst hr
          simp [castU, htop.2]
        · rcases castU_union_ok hs v r htop hc with h1 | ⟨h1, h2⟩
          · rcases scan1_idem hs hfix v r h1 with rfl | ⟨t, hv, hrt, hsr⟩
            · exact hc0
            · have hrn : ¬(r = .vnone ∧ hs.any NHint.isNoneT = true) :=
                fun hcon => valueTag_ne_vnone r t hrt hcon.1
              exact castU_union_of_scan1 hs r r hrn hsr
          · obtain ⟨h, hm, hcN, hnskip⟩ := scan2_exists hs v r h2
            by_cases hsimp : h.isSimple = true
            · have hnn : h.isNoneT = false := by
                cases hh : h.isNoneT
                · rfl
                · exfalso
                  have hne : h = .noneT := by
                    cases h <;> simp_all [NHint.isNoneT]
                  subst hne
                  obtain ⟨hr1, hv1⟩ := castN_noneT_ok v r hcN
                  exact htop ⟨hv1, List.any_eq_true.mpr ⟨.noneT, hm, rfl⟩⟩
              have hinst : pyIsInstanceN r h = true :=
                castN_simple_result h hsimp v r hcN
              have hp : r.isPrim = true :=
                isPrim_of_simple_instance h r hsimp hnn hinst
              have hsr : scan1 r hs = some (.ok r) :=
                scan1_finds_simple r hp hs ⟨h, hm, hnn, hsimp, hinst⟩
              have hrn : ¬(r = .vnone ∧ hs.any NHint.isNoneT = true) :=
                fun hcon => prim_ne_vnone r hp hcon.1
              exact castU_union_of_scan1 hs r r hrn hsr
            · have hsf : h.isSimple = false := by
                cases hh : h.isSimple
                · rfl
                · exact absurd hh hsimp
              obtain ⟨t, hot⟩ := originTag_of_not_simple h hsf
              have hrt : r.valueTag = some t := castN_tag h t hot v r hcN
              have hcr : castN r h = .ok r := hfix h hm v r hcN
              have hsr : scan1 r hs = some (.ok r) :=
                scan1_finds_container r t hrt hs hndtags h hm hot hcr
              have hrn : ¬(r = .vnone ∧ hs.any NHint.isNoneT = true) :=
                fun hcon => valueTag_ne_vnone r t hrt hcon.1
              exact castU_union_of_scan1 hs r r hrn hsr

/-- C4 (amended): casting is idempotent — `cast(cast(v, T), T) =
cast(v, T)` whenever `cast(v, T)` succeeds — for every shape `T` in
which no union lists two members sharing a container origin.  (With two
same-origin members idempotence fails, as the recorded counterexample
shows: `cast("25", Union[list[bool], list[int]])` is `[2, 5]` but
recasting that result yields `[True, True]`.) -/
theorem claim_C4_cast_idempotent (T : UHint) (v r : Value)
    (hnd : noDupOriginsU T = true) (hc : castU v T = .ok r) :
    castU r T = .ok r :=
  (cast_idem_main (sizeOf T)).2 T (le_refl _) v r hnd hc

/-- C4 witness: `Union[int, str]` has no duplicated container origin;
casting `8.5` into it gives `8`, and recasting `8` gives `8` again by
the amended theorem. -/
theorem claim_C4_witness :
    noDupOriginsU (.union [.intT, .strT]) = true
    ∧ castU (.vfloat (17/2)) (.union [.intT, .strT]) = .ok (.vint 8)
    ∧ castU (.vint 8) (.union [.intT, .strT]) = .ok (.vint 8) := by
  have h1 : noDupOriginsU (.union [.intT, .strT]) = true := by
    simp [noDupOriginsU, ndAllN, noDupOriginsN, noDupTags, NHint.originTag]
  have h2 : castU (.vfloat (17/2)) (.union [.intT, .strT])
      = .ok (.vint 8) := by
    have htr : pyTruncRat (17/2) = 8 := by
      norm_num [pyTruncRat]
      decide
    simp [castU, scan1, scan2, castN, pyIsInstanceN, NHint.isNoneT,
      NHint.isSimple, htr]
  exact ⟨h1, h2,
    claim_C4_cast_idempotent (.union [.intT, .strT]) (.vfloat (17/2))
      (.vint 8) h1 h2⟩

end Classno
